import Mathlib

/-!
# Verification of the extraction-result parsing and JSON-repair pipeline

A shallow embedding, in Lean 4, of the document-extraction post-processing
core of the repository:

* `repairTruncatedJSON`  (src/services/documentExtractor.ts, lines 41-101),
* the empty-table quality gate `reExtractEmptyTables` (same file, lines 107-267),
* `parseCompactTable`, `extractFromParsed`, `parseExtractedText`,
  `cleanBoldMarkers` and `parseMarkdownText` (src/utils/parseExtractedText.ts).

Modelling conventions:

* JavaScript strings are modelled by Lean `String` / `List Char`; the
  JavaScript whitespace class (shared by `String.trim` and the regex class
  for whitespace) is modelled by `wsChar` below.
* `JSON.parse` is modelled by `jsonParseL`, a fuel-indexed recursive-descent
  parser of the JSON grammar.  String escape sequences are decoded as the
  engine decodes them; a number keeps its spelling (no claim proved here
  compares two spellings of one number, so the model does not need float
  semantics).  Duplicate object keys are resolved as in JavaScript: the
  last binding wins, at the position of the first.
* A thrown exception is modelled by `Option`/`none`; the one network call
  of the quality gate is an explicit `Option String` argument (the raw
  model response, `none` when the transport or envelope failed).
* Each regular expression of the source is translated into a dedicated
  character-list matcher that reproduces the backtracking behaviour of the
  JavaScript engine on the regex in question; the derivation is noted at
  each matcher.
-/

/-! ## Character classes and string helpers -/

/-- The JavaScript whitespace class: the characters accepted by the regex
class for whitespace and stripped by `String.trim`. -/
def wsChar (c : Char) : Bool :=
  c = ' ' || c = '\t' || c = '\n' || c = '\r' ||
  c = Char.ofNat 0x0b || c = Char.ofNat 0x0c || c = Char.ofNat 0xa0 ||
  c = Char.ofNat 0x1680 || (0x2000 ≤ c.toNat && c.toNat ≤ 0x200a) ||
  c = Char.ofNat 0x2028 || c = Char.ofNat 0x2029 || c = Char.ofNat 0x202f ||
  c = Char.ofNat 0x205f || c = Char.ofNat 0x3000 || c = Char.ofNat 0xfeff

/-- The characters matched by an un-flagged `.` in a JavaScript regex:
everything except a line terminator. -/
def dotChar (c : Char) : Bool :=
  ¬ (c = '\n' || c = '\r' || c = Char.ofNat 0x2028 || c = Char.ofNat 0x2029)

/-- The backtick character, `0x60`. -/
def btick : Char := Char.ofNat 0x60

/-- The apostrophe character, `0x27`. -/
def apos : Char := Char.ofNat 0x27

/-- `String.prototype.trim`, on character lists. -/
def jsTrimL (cs : List Char) : List Char :=
  ((cs.dropWhile wsChar).reverse.dropWhile wsChar).reverse

/-- `String.prototype.trim`. -/
def jsTrim (s : String) : String := ⟨jsTrimL s.toList⟩

/-- `String.prototype.split` with a single-character separator, on
character lists: always returns at least one piece, and empty pieces are
kept, exactly as in JavaScript. -/
def splitOnCharL (sep : Char) : List Char → List (List Char)
  | [] => [[]]
  | c :: rest =>
    let r := splitOnCharL sep rest
    if c = sep then [] :: r
    else
      match r with
      | h :: t => (c :: h) :: t
      | [] => [[c]]

/-- `String.prototype.split` with a single-character separator. -/
def splitOnChar (sep : Char) (s : String) : List String :=
  (splitOnCharL sep s.toList).map fun l => ⟨l⟩

/-- Whether a string contains a given character (`String.prototype.includes`
with a one-character needle). -/
def containsChar (c : Char) (s : String) : Bool := s.toList.any (· = c)

/-- Whether `p` is a prefix of `cs` (used to model `startsWith`). -/
def startsWithL : List Char → List Char → Bool
  | [], _ => true
  | _ :: _, [] => false
  | p :: ps, c :: cs => p = c && startsWithL ps cs

/-- `String.prototype.startsWith`. -/
def jsStartsWith (p s : String) : Bool := startsWithL p.toList s.toList

/-- Whether `p` is a suffix of `cs` (used to model `endsWith`). -/
def endsWithL (p cs : List Char) : Bool := startsWithL p.reverse cs.reverse

/-- `Array.prototype.join` with a newline separator (on strings). -/
def joinNL : List String → String
  | [] => ""
  | [s] => s
  | s :: rest => s ++ "\n" ++ joinNL rest

/-! ## The JSON value model -/

/-- A parsed JSON value, as produced by the model of `JSON.parse`.
A number keeps its spelling (see the header). -/
inductive JVal where
  | null : JVal
  | bool : Bool → JVal
  | num : String → JVal
  | str : String → JVal
  | arr : List JVal → JVal
  | obj : List (String × JVal) → JVal

/-- Lookup of a key in an object field list (first binding; the parser
below never produces a repeated key). -/
def lookupField (k : String) : List (String × JVal) → Option JVal
  | [] => none
  | (k', v) :: rest => if k' = k then some v else lookupField k rest

/-- Property access `v.k` on a JSON value when the access does not
throw: a lookup on objects, and JavaScript `undefined` (modelled `none`)
on a non-null primitive or an array.  On `null` the source raises a
TypeError instead; the definitions with the `E` suffix below make that
raise explicit, and this pure projection is used where the base is
guarded or the raise is accounted for separately. -/
def getField : JVal → String → Option JVal
  | .obj fs, k => lookupField k fs
  | _, _ => none

/-- Decimal digits read as a natural number. -/
def decDigitsVal (ds : List Char) : Nat :=
  ds.foldl (fun a c => a * 10 + (c.toNat - 48)) 0

/-- Whether the spelling of a JSON number coerces to the IEEE double zero
(the falsy numbers).  Writing the exact value as `sig * 10 ^ e10` with
`sig` the concatenated significand digits: either `sig` is zero, or the
magnitude is at most `2 ^ (-1075)` — half the least positive subnormal —
so that round-to-nearest sends it to zero (the tie at exactly
`2 ^ (-1075)` also rounds to zero, whose even significand wins).  `NaN`
cannot arise from JSON text and an overflow to infinity is truthy, so
this is the whole falsy class. -/
def numIsZero (lex : String) : Bool :=
  let cs := match lex.toList with
    | '-' :: r => r
    | r => r
  let mantissa := cs.takeWhile fun c => ¬ (c = 'e' || c = 'E')
  let expPart := cs.dropWhile fun c => ¬ (c = 'e' || c = 'E')
  let intPart := mantissa.takeWhile (· ≠ '.')
  let fracPart := (mantissa.dropWhile (· ≠ '.')).drop 1
  let sig := decDigitsVal (intPart ++ fracPart)
  let expVal : Int :=
    match expPart with
    | _ :: '-' :: ds => -(decDigitsVal ds : Int)
    | _ :: '+' :: ds => (decDigitsVal ds : Int)
    | _ :: ds => (decDigitsVal ds : Int)
    | [] => 0
  let e10 : Int := expVal - fracPart.length
  if sig = 0 then true
  else if 0 ≤ e10 then false
  else decide (sig * 2 ^ 1075 ≤ 10 ^ e10.natAbs)

/-- JavaScript truthiness of a parsed JSON value.  `NaN` cannot arise from
JSON text, so a number is falsy exactly when it denotes zero. -/
def jvTruthy : JVal → Bool
  | .null => false
  | .bool b => b
  | .num lex => ¬ numIsZero lex
  | .str s => s ≠ ""
  | .arr _ => true
  | .obj _ => true

/-- Truthiness of a possibly-absent value (`undefined` is falsy). -/
def truthy : Option JVal → Bool
  | none => false
  | some v => jvTruthy v

/-- `x || undefined`: keep a truthy value, collapse a falsy one to absent. -/
def truthyOpt (o : Option JVal) : Option JVal := if truthy o then o else none

/-- `Array.isArray(x) ? x : []` — the element list of an array value,
and `[]` for anything else (including `undefined`). -/
def asArrElems : Option JVal → List JVal
  | some (.arr xs) => xs
  | _ => []

/-- Whether a possibly-absent value is an array (`Array.isArray`). -/
def isArrVal : Option JVal → Bool
  | some (.arr _) => true
  | _ => false

/-! ## The model of `JSON.parse`

A fuel-indexed recursive-descent parser of the JSON grammar (RFC 8259):
`parseVal` reads one value, `parseMembers` the members of an object after
its first key has been sighted, `parseItems` the items of an array.
Fuel `cs.length + 1` always suffices since every recursive call strictly
consumes input. -/

/-- JSON insignificant whitespace (RFC 8259: space, tab, LF, CR). -/
def jsonWs (c : Char) : Bool := c = ' ' || c = '\t' || c = '\n' || c = '\r'

/-- Skip JSON whitespace. -/
def skipWs (cs : List Char) : List Char := cs.dropWhile jsonWs

/-- Hexadecimal digit. -/
def isHexDigit (c : Char) : Bool :=
  c.isDigit || ('a' ≤ c && c ≤ 'f') || ('A' ≤ c && c ≤ 'F')

/-- The value of a hexadecimal digit. -/
def hexDigitVal (c : Char) : Nat :=
  if c.isDigit then c.toNat - 48
  else if 'a' ≤ c && c ≤ 'f' then c.toNat - 87
  else if 'A' ≤ c && c ≤ 'F' then c.toNat - 55
  else 0

/-- The value of a four-hex-digit escape. -/
def hex4 (h1 h2 h3 h4 : Char) : Nat :=
  ((hexDigitVal h1 * 16 + hexDigitVal h2) * 16 + hexDigitVal h3) * 16 + hexDigitVal h4

/-- A code unit as a character.  `JSON.parse` tolerates a lone surrogate;
a Lean `Char` cannot hold one, so the model represents it by `U+FFFD`
(no property proved here inspects such a string). -/
def scalarOfCode (n : Nat) : Char :=
  if 0xd800 ≤ n ∧ n ≤ 0xdfff then Char.ofNat 0xfffd else Char.ofNat n

/-- Read the body of a JSON string after the opening quote, decoding the
escape sequences as `JSON.parse` does (surrogate pairs combine into one
scalar); returns the content and the input after the closing quote.
The first argument is fuel (one unit per consumed escape or character;
`cs.length + 1` always suffices). -/
def parseStrBody : Nat → List Char → Option (List Char × List Char)
  | 0, _ => none
  | _ + 1, [] => none
  | fuel + 1, c :: rest =>
    if c = '"' then some ([], rest)
    else if c = '\\' then
      match rest with
      | [] => none
      | 'u' :: h1 :: h2 :: h3 :: h4 :: rest2 =>
        if isHexDigit h1 && isHexDigit h2 && isHexDigit h3 && isHexDigit h4 then
          let n := hex4 h1 h2 h3 h4
          if 0xd800 ≤ n ∧ n ≤ 0xdbff then
            match rest2 with
            | '\\' :: 'u' :: g1 :: g2 :: g3 :: g4 :: rest3 =>
              if isHexDigit g1 && isHexDigit g2 && isHexDigit g3 && isHexDigit g4 then
                let m := hex4 g1 g2 g3 g4
                if 0xdc00 ≤ m ∧ m ≤ 0xdfff then
                  (parseStrBody fuel rest3).map fun p =>
                    (Char.ofNat (0x10000 + (n - 0xd800) * 0x400 + (m - 0xdc00)) :: p.1, p.2)
                else (parseStrBody fuel rest2).map fun p => (Char.ofNat 0xfffd :: p.1, p.2)
              else (parseStrBody fuel rest2).map fun p => (Char.ofNat 0xfffd :: p.1, p.2)
            | _ => (parseStrBody fuel rest2).map fun p => (Char.ofNat 0xfffd :: p.1, p.2)
          else (parseStrBody fuel rest2).map fun p => (scalarOfCode n :: p.1, p.2)
        else none
      | e :: rest1 =>
        let dec : Option Char :=
          if e = '"' then some '"'
          else if e = '\\' then some '\\'
          else if e = '/' then some '/'
          else if e = 'b' then some (Char.ofNat 8)
          else if e = 'f' then some (Char.ofNat 12)
          else if e = 'n' then some '\n'
          else if e = 'r' then some '\r'
          else if e = 't' then some '\t'
          else none
        match dec with
        | some d => (parseStrBody fuel rest1).map fun p => (d :: p.1, p.2)
        | none => none
    else if c.toNat < 0x20 then none
    else
      match parseStrBody fuel rest with
      | some (body, rem) => some (c :: body, rem)
      | none => none

/-- Read the digits of a nonempty digit run. -/
def digitRun (cs : List Char) : List Char × List Char :=
  (cs.takeWhile Char.isDigit, cs.dropWhile Char.isDigit)

/-- Read an optional exponent part after the significand of a JSON number. -/
def finishExp (lexSoFar : List Char) (cs : List Char) : Option (List Char × List Char) :=
  match cs with
  | e :: rest =>
    if e = 'e' || e = 'E' then
      let (sgn, rest2) :=
        match rest with
        | s :: r => if s = '+' || s = '-' then ([s], r) else (([] : List Char), rest)
        | [] => (([] : List Char), rest)
      let (ds, r) := digitRun rest2
      if ds = [] then none else some (lexSoFar ++ e :: sgn ++ ds, r)
    else some (lexSoFar, cs)
  | [] => some (lexSoFar, cs)

/-- Read a JSON number starting at `cs` (first char is `-` or a digit);
returns its spelling and the rest. -/
def parseNum (cs : List Char) : Option (List Char × List Char) :=
  let (sign, cs1) :=
    match cs with
    | '-' :: rest => (['-'], rest)
    | _ => (([] : List Char), cs)
  match cs1 with
  | [] => none
  | d :: _ =>
    if ¬ d.isDigit then none
    else
      let (intPart, cs2) :=
        if d = '0' then ([d], cs1.tail)
        else digitRun cs1
      match cs2 with
      | '.' :: rest =>
        let (ds, r) := digitRun rest
        if ds = [] then none
        else finishExp (sign ++ intPart ++ '.' :: ds) r
      | _ => finishExp (sign ++ intPart) cs2

/-- Insert a field into an object under construction: the last binding of
a repeated key wins, at the position of the first, as in JavaScript. -/
def insertField (k : String) (v : JVal) : List (String × JVal) → List (String × JVal)
  | [] => [(k, v)]
  | (k', v') :: rest =>
    if k' = k then (k', v) :: rest else (k', v') :: insertField k v rest

mutual

/-- Read one JSON value at the head of `cs` (no leading whitespace). -/
def parseVal : Nat → List Char → Option (JVal × List Char)
  | 0, _ => none
  | _ + 1, [] => none
  | fuel + 1, c :: rest =>
    if c = '{' then
      match skipWs rest with
      | '}' :: rest' => some (.obj [], rest')
      | cs' => parseMembers fuel cs' []
    else if c = '[' then
      match skipWs rest with
      | ']' :: rest' => some (.arr [], rest')
      | cs' => parseItems fuel cs' []
    else if c = '"' then
      match parseStrBody (rest.length + 1) rest with
      | some (body, rem) => some (.str ⟨body⟩, rem)
      | none => none
    else if c = 't' then
      if startsWithL ['r', 'u', 'e'] rest then some (.bool true, rest.drop 3) else none
    else if c = 'f' then
      if startsWithL ['a', 'l', 's', 'e'] rest then some (.bool false, rest.drop 4) else none
    else if c = 'n' then
      if startsWithL ['u', 'l', 'l'] rest then some (.null, rest.drop 3) else none
    else if c = '-' || c.isDigit then
      match parseNum (c :: rest) with
      | some (lex, rem) => some (.num ⟨lex⟩, rem)
      | none => none
    else none

/-- Read the members of an object, positioned at a key (after `{` and
whitespace, or after a comma and whitespace). -/
def parseMembers : Nat → List Char → List (String × JVal) → Option (JVal × List Char)
  | 0, _, _ => none
  | _ + 1, [], _ => none
  | fuel + 1, c :: rest, acc =>
    if c = '"' then
      match parseStrBody (rest.length + 1) rest with
      | some (body, rem) =>
        match skipWs rem with
        | ':' :: rem2 =>
          match parseVal fuel (skipWs rem2) with
          | some (v, rem3) =>
            let acc' := insertField ⟨body⟩ v acc
            match skipWs rem3 with
            | ',' :: rem4 => parseMembers fuel (skipWs rem4) acc'
            | '}' :: rem4 => some (.obj acc', rem4)
            | _ => none
          | none => none
        | _ => none
      | none => none
    else none

/-- Read the items of an array, positioned at an item. -/
def parseItems : Nat → List Char → List JVal → Option (JVal × List Char)
  | 0, _, _ => none
  | fuel + 1, cs, acc =>
    match parseVal fuel cs with
    | some (v, rem) =>
      match skipWs rem with
      | ',' :: rem2 => parseItems fuel (skipWs rem2) (acc ++ [v])
      | ']' :: rem2 => some (.arr (acc ++ [v]), rem2)
      | _ => none
    | none => none

end

/-- The model of `JSON.parse` on a character list: one complete value,
surrounded only by JSON whitespace; `none` models a thrown `SyntaxError`. -/
def jsonParseL (cs : List Char) : Option JVal :=
  match parseVal (cs.length + 1) (skipWs cs) with
  | some (v, rest) => if skipWs rest = [] then some v else none
  | none => none

/-- The model of `JSON.parse`. -/
def jsonParse (s : String) : Option JVal := jsonParseL s.toList

/-! ## `repairTruncatedJSON` (documentExtractor.ts, lines 41-101) -/

/-- The scanner state of the bracket-balancing pass of `repairTruncatedJSON`:
string/escape tracking plus the net counts of open braces and brackets. -/
structure ScanSt where
  inString : Bool
  escaped : Bool
  braces : Int
  brackets : Int
deriving DecidableEq

/-- The initial scanner state. -/
def ScanSt.init : ScanSt := ⟨false, false, 0, 0⟩

/-- One step of the character scan of `repairTruncatedJSON`
(lines 54-63 and 83-92 of the source). -/
def scanStep (st : ScanSt) (c : Char) : ScanSt :=
  if st.escaped then { st with escaped := false }
  else if c = '\\' then { st with escaped := true }
  else if c = '"' then { st with inString := ¬ st.inString }
  else if st.inString then st
  else if c = '{' then { st with braces := st.braces + 1 }
  else if c = '}' then { st with braces := st.braces - 1 }
  else if c = '[' then { st with brackets := st.brackets + 1 }
  else if c = ']' then { st with brackets := st.brackets - 1 }
  else st

/-- The full character scan. -/
def scanList (cs : List Char) (st : ScanSt) : ScanSt := cs.foldl scanStep st

/-- The closing characters appended after the scan: a quote if the scan
ended inside a string, then `]` for each net-open bracket, then `}` for
each net-open brace (lines 66-70 / 93-95). -/
def closers (st : ScanSt) : List Char :=
  (if st.inString then ['"'] else []) ++
  List.replicate (max 0 st.brackets).toNat ']' ++
  List.replicate (max 0 st.braces).toNat '}'

/-- Find the leftmost comma whose tail satisfies `p`, and drop from that
comma to the end; `none` when there is no such comma.  This models
`str.replace(re, given empty string)` for the anchored patterns
of the repair routine, each of the form: a comma, then a tail shape
reaching the end of input. -/
def findCommaStrip (p : List Char → Bool) : List Char → Option (List Char)
  | [] => none
  | c :: rest =>
    if c = ',' && p rest then some []
    else (findCommaStrip p rest).map (c :: ·)

/-- Apply a comma-anchored strip, returning the input unchanged when the
pattern does not occur. -/
def applyStrip (p : List Char → Bool) (cs : List Char) : List Char :=
  (findCommaStrip p cs).getD cs

/-- Tail shape of the pattern for a trailing incomplete key-value:
whitespace, a quote, then no further quote up to the end. -/
def tailIncompleteStr (cs : List Char) : Bool :=
  match cs.dropWhile wsChar with
  | '"' :: r => r.all (· ≠ '"')
  | _ => false

/-- Tail shape of the pattern for a trailing incomplete array element:
whitespace, `[`, then no `]` up to the end. -/
def tailIncompleteArr (cs : List Char) : Bool :=
  match cs.dropWhile wsChar with
  | '[' :: r => r.all (· ≠ ']')
  | _ => false

/-- Tail shape of the pattern for a trailing incomplete object element:
whitespace, a brace, then no closing brace up to the end. -/
def tailIncompleteObj (cs : List Char) : Bool :=
  match cs.dropWhile wsChar with
  | '{' :: r => r.all (· ≠ '}')
  | _ => false

/-- Tail shape of a bare trailing comma: only whitespace to the end. -/
def tailOnlyWs (cs : List Char) : Bool := cs.all wsChar

/-- The first cleanup pass of `repairTruncatedJSON` (lines 44-46): strip a
trailing incomplete key-value, then a trailing incomplete array element,
then a trailing comma. -/
def stripPass (cs : List Char) : List Char :=
  applyStrip tailOnlyWs (applyStrip tailIncompleteArr (applyStrip tailIncompleteStr cs))

/-- The more aggressive cleanup of the second attempt (lines 78-80):
strip a trailing incomplete object element, then a trailing incomplete
array element, then a trailing comma. -/
def stripPass2 (cs : List Char) : List Char :=
  applyStrip tailOnlyWs (applyStrip tailIncompleteArr (applyStrip tailIncompleteObj cs))

/-- `repairTruncatedJSON` (documentExtractor.ts, lines 41-101): trim,
strip trailing incomplete fragments, balance quotes and brackets, parse;
on failure strip more aggressively from the already-closed text, rebalance
and parse once more; `none` when both attempts fail. -/
def repairTruncatedJSON (s : String) : Option JVal :=
  let f0 := stripPass (jsTrimL s.toList)
  let fixed := f0 ++ closers (scanList f0 .init)
  match jsonParseL fixed with
  | some v => some v
  | none =>
    let g0 := stripPass2 fixed
    let fixed2 := g0 ++ closers (scanList g0 .init)
    jsonParseL fixed2

/-! ## `StructuredExtraction` and the canonical-shape path
(parseExtractedText.ts, lines 4-65)

The TypeScript record declares typed fields, but the code copies whatever
runtime values the parsed JSON holds, so the model keeps `JVal` in the
positions the code does not validate.  The markdown fallback stores its
key-value pairs and sections as the two-field objects the code builds. -/

/-- A canonical table: caption (copied through `|| undefined`), headers and
rows.  Shape B of the normalizer passes the raw arrays through, so the
element type is `JVal`; shape A and the markdown fallback build strings. -/
structure CTable where
  caption : Option JVal
  headers : List JVal
  rows : List JVal

/-- The canonical output record of the parser. -/
structure StructuredExtraction where
  title : Option JVal
  documentType : Option JVal
  keyValuePairs : List JVal
  sections : List JVal
  tables : List CTable
  rawText : Option String

/-- `parseCompactTable` (parseExtractedText.ts, lines 4-18): shape A when
`table.data` is a truthy string — split on newlines, drop blank lines,
split each line on pipes and trim each cell; shape B passes an existing
`headers`/`rows` pair through; otherwise the table is rejected. -/
def parseCompactTable (table : JVal) : Option CTable :=
  match getField table "data" with
  | some (.str s) =>
    if s ≠ "" then
      let lines := (splitOnChar '\n' s).filter fun l => jsTrim l ≠ ""
      match lines with
      | [] => none
      | h :: rows =>
        some { caption := truthyOpt (getField table "caption"),
               headers := (splitOnChar '|' h).map fun c => .str (jsTrim c),
               rows := rows.map fun line =>
                 .arr ((splitOnChar '|' line).map fun c => .str (jsTrim c)) }
    else parseLegacyTable table
  | _ => parseLegacyTable table
where parseLegacyTable (table : JVal) : Option CTable :=
  match getField table "headers", getField table "rows" with
  | some (.arr hs), some (.arr rs) =>
    some { caption := truthyOpt (getField table "caption"), headers := hs, rows := rs }
  | _, _ => none

/-- The recognizability check of `extractFromParsed` (line 21):
`parsed && typeof parsed (being the object type) && (parsed.keyValuePairs ||
parsed.sections || parsed.tables || parsed.title)` — property access on a
non-object yields `undefined`, which is falsy, so the whole reduces to:
one of the four properties holds a truthy value. -/
def recognizable (parsed : JVal) : Bool :=
  truthy (getField parsed "keyValuePairs") || truthy (getField parsed "sections") ||
  truthy (getField parsed "tables") || truthy (getField parsed "title")

/-- `extractFromParsed` (parseExtractedText.ts, lines 20-35). -/
def extractFromParsed (parsed : JVal) : Option StructuredExtraction :=
  if recognizable parsed then
    some { title := truthyOpt (getField parsed "title"),
           documentType := truthyOpt (getField parsed "documentType"),
           keyValuePairs := asArrElems (getField parsed "keyValuePairs"),
           sections := asArrElems (getField parsed "sections"),
           tables := (asArrElems (getField parsed "tables")).filterMap parseCompactTable,
           rawText := none }
  else none

/-! ### The code-fence unwrap (parseExtractedText.ts, lines 43-48)

The two regexes tried on the trimmed text share the head
(three backticks, an optional literal tag `json`, greedy whitespace, an
optional newline).  The first in addition requires three closing backticks
at the very end, separated from the lazily-matched group only by
whitespace; since the caller trims the captured group, the lazy/greedy
split inside that whitespace is immaterial and the group reduces to: the
text between the head and the final three backticks.  The second regex
captures everything after the head. -/

/-- The captured group of the fence match, `none` when neither regex
matches (the text does not start with three backticks). -/
def fenceGroup (t : String) : Option String :=
  let cs := t.toList
  if startsWithL [btick, btick, btick] cs then
    let r0 := cs.drop 3
    let r1 := if startsWithL ['j', 's', 'o', 'n'] r0 then r0.drop 4 else r0
    let body := r1.dropWhile wsChar
    if endsWithL [btick, btick, btick] body ∧ body ≠ [] then
      some ⟨body.dropLast.dropLast.dropLast⟩
    else some ⟨body⟩
  else none

/-- Lines 43-48 of `parseExtractedText`: trim, and unwrap a code fence
when one is present (the unwrapped group is trimmed again). -/
def cleanOf (text : String) : String :=
  let t := jsTrim text
  match fenceGroup t with
  | some g => jsTrim g
  | none => t

/-- The JSON path of `parseExtractedText` (lines 51-62): direct parse,
and on a parse failure one repair attempt; `none` exactly when the
function falls through to the markdown parser.  Note that when the direct
parse succeeds but the shape is not recognizable, no repair is attempted,
mirroring the `try`/`catch` structure of the source.  This pure model
covers the executions on which no TypeError is raised; the raising ones
are modelled by `parseExtractedTextE` below. -/
def jsonPathResult (cleanText : String) : Option StructuredExtraction :=
  match jsonParse cleanText with
  | some parsed => extractFromParsed parsed
  | none =>
    match repairTruncatedJSON cleanText with
    | some repaired => extractFromParsed repaired
    | none => none

/-! ## The markdown fallback parser (parseExtractedText.ts, lines 67-173)

Each regex of the source becomes a matcher on the characters of the
(already trimmed) line.  Where the engine would backtrack, the matcher
computes the split the engine settles on; the derivations are noted. -/

/-- All characters are JavaScript whitespace. -/
def allWsL (cs : List Char) : Bool := cs.all wsChar

/-- `cleanBoldMarkers` (lines 67-69): remove every non-overlapping pair of
stars left to right, strip one leading star followed by whitespace, trim. -/
def removeStarPairs : List Char → List Char
  | '*' :: '*' :: rest => removeStarPairs rest
  | c :: rest => c :: removeStarPairs rest
  | [] => []

/-- `cleanBoldMarkers` (parseExtractedText.ts, lines 67-69). -/
def cleanBoldMarkers (s : String) : String :=
  let cs := removeStarPairs s.toList
  let cs2 :=
    match cs with
    | '*' :: rest => if rest.takeWhile wsChar ≠ [] then rest.dropWhile wsChar else cs
    | _ => cs
  ⟨jsTrimL cs2⟩

/-- One trailing-colon removal (the `.replace` with an end-anchored colon
applied to a recognized heading). -/
def dropTrailingColon (s : String) : String :=
  match s.toList.reverse with
  | ':' :: rest => ⟨rest.reverse⟩
  | _ => s

/-- Matcher tail for the numbered-bold-heading regex: an optional colon,
two stars, an optional colon, then only whitespace to the end.  Both
optional colons are deterministic here because a colon can never begin
the alternative continuation (two stars, resp. whitespace-only end). -/
def starStarTail (ys : List Char) : Bool :=
  match ys with
  | '*' :: '*' :: zs =>
    (match zs with
     | ':' :: rest => allWsL rest
     | _ => allWsL zs)
  | _ => false

/-- See `starStarTail`. -/
def tailColonStars (xs : List Char) : Bool :=
  match xs with
  | ':' :: r => starStarTail r
  | _ => starStarTail xs

/-- First phase of the engine search for the lazy group boundary of the
numbered-bold-heading regex: with the greedy whitespace run at full
length `W0`, the body grows from one character on, so candidate
boundaries `s` run over `W0+1 … N` in ascending order. -/
def fsPhase1 (R : List Char) (W0 : Nat) : Option Nat :=
  (List.range' (W0 + 1) (R.length - W0)).find? fun s =>
    ((R.drop W0).take (s - W0)).all dotChar && tailColonStars (R.drop s)

/-- Second phase: the whitespace run backtracks one character at a time,
each time offering the boundary just before the previous run end, so the
remaining candidates `s` run over `W0 … 1` in descending order, with the
body reduced to the single character before the boundary. -/
def fsPhase2 (R : List Char) (W0 : Nat) : Option Nat :=
  ((List.range' 1 W0).reverse).find? fun s =>
    (R.take (s - 1)).all wsChar && dotChar (R.getD (s - 1) ' ') && tailColonStars (R.drop s)

/-- The numbered-bold-heading regex (line 94 of the source): two stars,
digits, a dot, lazily-matched body, optional colon, two closing stars,
optional colon, trailing whitespace.  Returns the captured group. -/
def sectionBoldNumbered (cs : List Char) : Option (List Char) :=
  match cs with
  | '*' :: '*' :: rest =>
    let ds := rest.takeWhile Char.isDigit
    let r2 := rest.dropWhile Char.isDigit
    if ds = [] then none
    else
      match r2 with
      | '.' :: R =>
        let W0 := (R.takeWhile wsChar).length
        (match fsPhase1 R W0 <|> fsPhase2 R W0 with
         | some s => some (ds ++ '.' :: R.take s)
         | none => none)
      | _ => none
  | _ => none

/-- The hash-heading regex (line 95): one to three hashes, whitespace,
then the heading.  Returns the captured group. -/
def sectionHash (cs : List Char) : Option (List Char) :=
  let hs := cs.takeWhile (· = '#')
  let rest := cs.dropWhile (· = '#')
  if hs.length = 0 ∨ hs.length > 3 then none
  else if rest.takeWhile wsChar = [] then none
  else
    let body := rest.dropWhile wsChar
    if body ≠ [] ∧ body.all dotChar then some body else none

/-- The standalone-bold-heading regex (line 96): two stars, a nonempty
star-free group, two stars, trailing whitespace. -/
def sectionBoldPlain (cs : List Char) : Option (List Char) :=
  match cs with
  | '*' :: '*' :: rest =>
    let A := rest.takeWhile (· ≠ '*')
    let r2 := rest.dropWhile (· ≠ '*')
    if A = [] then none
    else
      match r2 with
      | '*' :: '*' :: tailCs => if allWsL tailCs then some A else none
      | _ => none
  | _ => none

/-- The recognized section heading of a line, already cleaned as the
source does at line 101. -/
def sectionHeaderOf (line : String) : Option String :=
  match sectionBoldNumbered line.toList <|> sectionHash line.toList <|>
        sectionBoldPlain line.toList with
  | some g => some (jsTrim (dropTrailingColon (cleanBoldMarkers ⟨g⟩)))
  | none => none

/-- The common tail of the two bold key-value regexes and the plain one:
whitespace, a colon, whitespace, then the nonempty value group running to
the end of the line.  A value that would be pure whitespace is reported
as no match here; the caller rejects such a line either way (the source
checks the trimmed value for nonemptiness), and the three key-value
regexes are mutually exclusive on their first characters, so folding the
rejection into the matcher does not change which branch runs. -/
def afterColonVal (cs : List Char) : Option (List Char) :=
  match cs.dropWhile wsChar with
  | ':' :: r2 =>
    let v := r2.dropWhile wsChar
    if v ≠ [] ∧ v.all dotChar then some v else none
  | _ => none

/-- The class of the bold key-value key group: anything but a star or
colon. -/
def kvClass2 (c : Char) : Bool := ¬ (c = '*' || c = ':')

/-- Shared body of the two bold key-value regexes, from after the two
opening stars: key group, two closing stars, colon tail. -/
def kvBoldCore (r2 : List Char) : Option (List Char × List Char) :=
  let A := r2.takeWhile kvClass2
  let r3 := r2.dropWhile kvClass2
  if A = [] then none
  else
    match r3 with
    | '*' :: '*' :: r4 =>
      (match afterColonVal r4 with
       | some v => some (A, v)
       | none => none)
    | _ => none

/-- The bulleted-bold key-value regex (line 109): a star, whitespace, then
the bold core. -/
def kvBoldBullet (cs : List Char) : Option (List Char × List Char) :=
  match cs with
  | '*' :: rest =>
    if rest.takeWhile wsChar = [] then none
    else
      match rest.dropWhile wsChar with
      | '*' :: '*' :: r2 => kvBoldCore r2
      | _ => none
  | _ => none

/-- The bold key-value regex (line 110): two stars, then the bold core. -/
def kvBold (cs : List Char) : Option (List Char × List Char) :=
  match cs with
  | '*' :: '*' :: r2 => kvBoldCore r2
  | _ => none

/-- The character class of the plain key-value key. -/
def kvClassPlain (c : Char) : Bool :=
  ('A' ≤ c && c ≤ 'Z') || ('a' ≤ c && c ≤ 'z') || wsChar c ||
  c = '/' || c = '.' || c = '-' || c = '#' || c = '(' || c = ')' || c.isDigit

/-- The plain key-value regex (line 111): a capital, a lazy run of the key
class, whitespace, the first colon, whitespace, the value.  The lazy run
cannot cross a colon (the class excludes it), so the split is at the
first colon; the key group gives its trailing whitespace to the greedy
whitespace that follows, except that it must keep at least one class
character. -/
def kvPlain (cs : List Char) : Option (List Char × List Char) :=
  match cs with
  | c0 :: rest =>
    if 'A' ≤ c0 && c0 ≤ 'Z' then
      let pre := rest.takeWhile (· ≠ ':')
      match rest.dropWhile (· ≠ ':') with
      | ':' :: afterC =>
        if pre = [] then none
        else if pre.all kvClassPlain then
          let preR := pre.reverse
          let kept :=
            if (preR.takeWhile wsChar).length ≥ pre.length then pre.take 1
            else (preR.dropWhile wsChar).reverse
          let v := afterC.dropWhile wsChar
          if v ≠ [] ∧ v.all dotChar then some (c0 :: kept, v) else none
        else none
      | _ => none
    else none
  | [] => none

/-- The key and value groups of the first key-value regex that matches. -/
def kvOf (line : String) : Option (String × String) :=
  match kvBoldBullet line.toList <|> kvBold line.toList <|> kvPlain line.toList with
  | some (k, v) => some (⟨k⟩, ⟨v⟩)
  | none => none

/-- Whether a line is taken as a key-value pair (line 114): a regex match
with a nonblank value and no pipe in the line. -/
def kvTaken (line : String) : Bool :=
  match kvOf line with
  | some (_, v) => jsTrim v ≠ "" && ¬ containsChar '|' line
  | none => false

/-- The cell list of a pipe line (line 124): split on pipes, drop the
blank cells, trim the rest. -/
def pipeCells (line : String) : List String :=
  ((splitOnChar '|' line).filter fun c => jsTrim c ≠ "").map jsTrim

/-- The class of the table-separator regex (line 127). -/
def sepClass (c : Char) : Bool := wsChar c || c = '-' || c = ':' || c = '|'

/-- Scan for the separator-row shape after the leading pipe: at least one
class character, then another pipe (the class itself contains the pipe,
so any later pipe preceded only by class characters matches). -/
def sepLineGo : List Char → Bool → Bool
  | [], _ => false
  | c :: xs, seen =>
    if c = '|' then (if seen then true else sepLineGo xs true)
    else if sepClass c then sepLineGo xs true
    else false

/-- The table-separator regex (line 127), an unanchored-end prefix test. -/
def isSepLine (t : String) : Bool :=
  match t.toList with
  | '|' :: rest => sepLineGo rest false
  | _ => false

/-- The intro-filler regex (line 154), a case-insensitive prefix test. -/
def isIntroLine (line : String) : Bool :=
  let l : List Char := line.toList.map Char.toLower
  startsWithL ['h', 'e', 'r', 'e', 's'] l ||
  startsWithL ['h', 'e', 'r', 'e', apos, 's'] l ||
  startsWithL ['t', 'h', 'e', ' ', 'f', 'o', 'l', 'l', 'o', 'w', 'i', 'n', 'g'] l ||
  startsWithL ['e', 'x', 't', 'r', 'a', 'c', 't', 'e', 'd'] l ||
  startsWithL ['b', 'e', 'l', 'o', 'w'] l

/-- The running state of the markdown scan, mirroring the local variables
of `parseMarkdownText` together with the result record under
construction. -/
structure MdState where
  keyValuePairs : List JVal
  sections : List JVal
  tables : List CTable
  currentSection : Option (String × String)
  inTable : Bool
  tableHeaders : List String
  tableRows : List (List String)
  remaining : List String

/-- The state at entry of the scan. -/
def MdState.init : MdState := ⟨[], [], [], none, false, [], [], []⟩

/-- The two-field object pushed for a recognized key-value pair. -/
def kvObj (k v : String) : JVal := .obj [("key", .str k), ("value", .str v)]

/-- The two-field object pushed for a closed section. -/
def sectionObj (h c : String) : JVal := .obj [("heading", .str h), ("content", .str c)]

/-- Close the open section, if any (lines 98-100 and 165-167). -/
def flushSection (st : MdState) : MdState :=
  match st.currentSection with
  | some (h, c) =>
    { st with sections := st.sections ++ [sectionObj h c], currentSection := none }
  | none => st

/-- A finished markdown table. -/
def mdTableOf (headers : List String) (rows : List (List String)) : CTable :=
  { caption := none, headers := headers.map .str, rows := rows.map fun r => .arr (r.map .str) }

/-- Close the in-progress table (lines 136-143): push it when it has
headers, and reset the table state. -/
def flushTable (st : MdState) : MdState :=
  let st' :=
    if st.tableHeaders ≠ [] then
      { st with tables := st.tables ++ [mdTableOf st.tableHeaders st.tableRows] }
    else st
  { st' with tableHeaders := [], tableRows := [], inTable := false }

/-- Append an unmatched line to the open section or to the remaining pool
(lines 145-158). -/
def accumulate (line : String) (st : MdState) : MdState :=
  match st.currentSection with
  | some (h, c) =>
    let cl := cleanBoldMarkers line
    if cl ≠ "" then
      { st with currentSection := some (h, if c = "" then cl else c ++ "\n" ++ cl) }
    else st
  | none =>
    if isIntroLine line then st
    else { st with remaining := st.remaining ++ [cleanBoldMarkers line] }

/-- Push the key-value pair recognized on a line (lines 115-118). -/
def pushKV (line : String) (st : MdState) : MdState :=
  match kvOf line with
  | some (k, v) =>
    { st with keyValuePairs :=
        st.keyValuePairs ++ [kvObj (jsTrim (cleanBoldMarkers k)) (jsTrim (cleanBoldMarkers v))] }
  | none => st

/-- The line scan of `parseMarkdownText` (lines 86-159).  The separator
branch consumes the following line as well, mirroring the index bump of
the source. -/
def mdLoop : List String → MdState → MdState
  | [], st => st
  | l :: rest, st =>
    let line := jsTrim l
    if line = "" then mdLoop rest st
    else
      match sectionHeaderOf line with
      | some h => mdLoop rest { flushSection st with currentSection := some (h, "") }
      | none =>
        if kvTaken line then mdLoop rest (pushKV line st)
        else if jsStartsWith "|" line then
          let nextLine := jsTrim (rest.headD "")
          if isSepLine nextLine then
            match rest with
            | [] => { st with tableHeaders := pipeCells line, inTable := true }
            | _ :: rest2 => mdLoop rest2 { st with tableHeaders := pipeCells line, inTable := true }
          else if st.inTable then
            mdLoop rest { st with tableRows := st.tableRows ++ [pipeCells line] }
          else mdLoop rest (accumulate line st)
        else
          mdLoop rest (accumulate line (if st.inTable then flushTable st else st))

/-- `parseMarkdownText` (parseExtractedText.ts, lines 71-173).  The final
`rawText` is the newline join of the remaining pool; when the pool is
empty the join is the empty string, which is also what the untouched
initial value of the source holds. -/
def parseMarkdownText (text : String) : StructuredExtraction :=
  let st := mdLoop (splitOnChar '\n' text) MdState.init
  let st1 :=
    if st.inTable ∧ st.tableHeaders ≠ [] then
      { st with tables := st.tables ++ [mdTableOf st.tableHeaders st.tableRows] }
    else st
  let st2 := flushSection st1
  { title := none, documentType := none,
    keyValuePairs := st2.keyValuePairs, sections := st2.sections, tables := st2.tables,
    rawText := some (joinNL st2.remaining) }

/-- `parseExtractedText` (parseExtractedText.ts, lines 41-65): the JSON
path on the unwrapped text, the markdown fallback on the original text.
This pure model describes the executions on which no TypeError is
raised; `parseExtractedTextE` below makes the raise of a `null` table
element explicit. -/
def parseExtractedText (text : String) : StructuredExtraction :=
  match jsonPathResult (cleanOf text) with
  | some r => r
  | none => parseMarkdownText text

/-! ## The exception-aware model of the JSON path

JavaScript property access on `null` raises a TypeError, so
`parseCompactTable(null)` raises at its very first step, the `table.data`
access of line 6, and the raise travels up through the table map of
`extractFromParsed` (line 24).  The definitions below repeat the JSON
path with that raise made explicit as `Except.error ()`; everywhere no
raise occurs they agree with the pure definitions above. -/

/-- Whether a JSON value is `null` (the one value a table map element can
hold on which property access raises). -/
def jvIsNull : JVal → Bool
  | .null => true
  | _ => false

/-- `parseCompactTable` with the raise made explicit: on a `null`
argument the `table.data` access of line 6 raises; on every other value
the body runs without raising (property access on a non-object is merely
`undefined`, failing both shape tests) and the pure model gives the
result. -/
def parseCompactTableE (table : JVal) : Except Unit (Option CTable) :=
  match table with
  | .null => .error ()
  | t => .ok (parseCompactTable t)

/-- `rawTables.map(parseCompactTable).filter(t != null)` of line 24 with
the raise made explicit: the map runs left to right and raises at the
first `null` element; with no `null` element the successful
normalizations are kept in order. -/
def tablesE : List JVal → Except Unit (List CTable)
  | [] => .ok []
  | t :: rest =>
    match parseCompactTableE t with
    | .error e => .error e
    | .ok r =>
      match tablesE rest with
      | .error e => .error e
      | .ok rs => .ok (match r with | some c => c :: rs | none => rs)

/-- `extractFromParsed` with the raise made explicit (lines 20-35).  The
recognizability test itself cannot raise: the guard of line 21
short-circuits on a falsy `parsed`, and property access on a truthy
non-object is `undefined`.  The only raising step is the table map. -/
def extractFromParsedE (parsed : JVal) : Except Unit (Option StructuredExtraction) :=
  if recognizable parsed then
    match tablesE (asArrElems (getField parsed "tables")) with
    | .error e => .error e
    | .ok tbls =>
      .ok (some { title := truthyOpt (getField parsed "title"),
                  documentType := truthyOpt (getField parsed "documentType"),
                  keyValuePairs := asArrElems (getField parsed "keyValuePairs"),
                  sections := asArrElems (getField parsed "sections"),
                  tables := tbls,
                  rawText := none })
  else .ok none

/-- `parseExtractedText` with the raise made explicit (lines 41-65).  The
`try` of line 51 catches both a parse failure and a TypeError of the
first `extractFromParsed` call; the catch block (lines 55-62) then runs
the repair and calls `extractFromParsed` again at line 59 with no
enclosing `try`, so a TypeError raised there propagates out of the
function and the markdown fallback of line 64 is never reached.
`repairTruncatedJSON` itself cannot raise (its parses sit in their own
`try`/`catch`), and the `if (repaired)` truthiness test of line 58 is
modelled exactly: a falsy parse result skips the retry (such a value is
never recognizable, so both routes land in the fallback). -/
def parseExtractedTextE (text : String) : Except Unit StructuredExtraction :=
  let cleanText := cleanOf text
  let onCatch : Except Unit StructuredExtraction :=
    match repairTruncatedJSON cleanText with
    | some repaired =>
      if jvTruthy repaired then
        match extractFromParsedE repaired with
        | .error e => .error e
        | .ok (some r) => .ok r
        | .ok none => .ok (parseMarkdownText text)
      else .ok (parseMarkdownText text)
    | none => .ok (parseMarkdownText text)
  match jsonParse cleanText with
  | some parsed =>
    match extractFromParsedE parsed with
    | .error _ => onCatch
    | .ok (some r) => .ok r
    | .ok none => .ok (parseMarkdownText text)
  | none => onCatch

/-! ## The Empty-Table Quality Gate (documentExtractor.ts, lines 107-267)

The gate is modelled as a pure function of the parsed data and the
outcome of its one network round-trip: `none` models an exception thrown
anywhere in the `try` block before the response text is in hand (base64
conversion, `fetch`, reading the response envelope); `some raw` is the
raw model response text.  Ratios are exact rationals; the source compares
IEEE doubles, which agree with the rational comparison for every cell
count a table could have (the two could differ only past about `10^15`
cells). -/

/-- A blank cell: empty after trimming. -/
def isEmptyCell (s : String) : Bool := jsTrim s = ""

/-- The non-blank lines of a compact `data` string (both passes filter
the same way). -/
def nonBlankLines (d : String) : List String :=
  (splitOnChar '\n' d).filter fun l => jsTrim l ≠ ""

/-- Cell totals of one data row in the queuing pass (lines 130-137): the
row is padded to the header width, a missing cell reads as the empty
string. -/
def rowQueueCounts (headerCols : Nat) (cells : List String) : Nat × Nat :=
  let n := max cells.length headerCols
  (n, ((List.range n).filter fun c => isEmptyCell (cells.getD c "")).length)

/-- One data row folded into the queuing-pass totals. -/
def queueStep (headerCols : Nat) (acc : Nat × Nat) (row : String) : Nat × Nat :=
  let rc := rowQueueCounts headerCols (splitOnChar '|' row)
  (acc.1 + rc.1, acc.2 + rc.2)

/-- Total and blank cell counts of a compact `data` string in the queuing
pass. -/
def queueStats (d : String) : Nat × Nat :=
  match nonBlankLines d with
  | [] => (0, 0)
  | h :: rows => rows.foldl (queueStep (splitOnChar '|' h).length) (0, 0)

/-- The empty-cell ratio of the queuing pass (line 139): blank cells over
total cells, `0` when there are no cells. -/
def queueRatio (d : String) : ℚ :=
  let st := queueStats d
  if 0 < st.1 then (st.2 : ℚ) / st.1 else 0

/-- Whether one table is queued for re-extraction (lines 118-144): its
`data` is a truthy string with more than one non-blank line and a queuing
ratio strictly above two fifths (the source literal `0.4`). -/
def tableQueued (t : JVal) : Bool :=
  match getField t "data" with
  | some (.str s) =>
    s ≠ "" && (nonBlankLines s).length > 1 && decide (queueRatio s > 2 / 5)
  | _ => false

/-- Total and blank cell counts of a compact `data` string in the
replacement pass (lines 233-250): each row contributes its own cell
count, with no padding to the header width. -/
def replStep (acc : Nat × Nat) (row : String) : Nat × Nat :=
  let cells := splitOnChar '|' row
  (acc.1 + cells.length, acc.2 + (cells.filter isEmptyCell).length)

/-- See `replStep`. -/
def replStats (d : String) : Nat × Nat :=
  match nonBlankLines d with
  | [] => (0, 0)
  | _ :: rows => rows.foldl replStep (0, 0)

/-- The empty-cell ratio of the replacement pass: blank cells over total
cells, `1` when there are no cells (lines 240 and 250). -/
def replRatio (d : String) : ℚ :=
  let st := replStats d
  if 0 < st.1 then (st.2 : ℚ) / st.1 else 1

/-- The `data` string of a table.  Every queued table holds a truthy
string there (the queue guard established it), so the default of this
projection is never exercised on the path that uses it. -/
def dataStringOf (t : JVal) : String :=
  match getField t "data" with
  | some (.str s) => s
  | _ => ""

/-- One iteration of the merge loop (lines 228-258): the candidate
replaces the original exactly when the candidate is truthy, carries a
truthy string `data`, and its replacement-pass ratio is strictly lower
than that of the original. -/
def mergeStep (old cand : JVal) : JVal :=
  if jvTruthy cand then
    match getField cand "data" with
    | some (.str s) =>
      if s ≠ "" then
        if replRatio s < replRatio (dataStringOf old) then cand else old
      else old
    | _ => old
  else old

/-- The merge loop over the queued indices paired positionally with the
re-extracted candidates (the loop stops at the shorter of the two
lists). -/
def mergeLoop (tables : List JVal) (pairs : List (Nat × JVal)) : List JVal :=
  pairs.foldl (fun tbls p => tbls.set p.1 (mergeStep (tbls.getD p.1 .null) p.2)) tables

/-- Parsing of the re-extraction response (lines 211-224): trim and
fence-unwrap, direct parse; on failure, repair from the first brace of
the raw text to its end. -/
def parseReExtractResponse (raw : String) : Option JVal :=
  match jsonParse (cleanOf raw) with
  | some v => some v
  | none =>
    match raw.toList.dropWhile (· ≠ '{') with
    | [] => none
    | rest => repairTruncatedJSON ⟨rest⟩

/-- Replace the `tables` binding of an object (the in-place array
mutation of the source, seen from outside). -/
def setTablesField (v : JVal) (tbls : List JVal) : JVal :=
  match v with
  | .obj fs => .obj (go fs)
  | other => other
where go : List (String × JVal) → List (String × JVal)
  | [] => []
  | (k', v') :: rest =>
    if k' = "tables" then (k', .arr tbls) :: rest else (k', v') :: go rest

/-- `reExtractEmptyTables` (documentExtractor.ts, lines 107-267), as a
pure function of the parsed data and the network outcome. -/
def reExtractEmptyTables (parsedData : JVal) (netResult : Option String) : JVal :=
  if ¬ (jvTruthy parsedData && isArrVal (getField parsedData "tables") &&
        ¬ (asArrElems (getField parsedData "tables")).isEmpty) then parsedData
  else
    let tables := asArrElems (getField parsedData "tables")
    let queued := (List.range tables.length).filter fun ti => tableQueued (tables.getD ti .null)
    if queued = [] then parsedData
    else
      match netResult with
      | none => parsedData
      | some raw =>
        match parseReExtractResponse raw with
        | some r =>
          if isArrVal (getField r "tables") then
            setTablesField parsedData
              (mergeLoop tables (queued.zip (asArrElems (getField r "tables"))))
          else parsedData
        | none => parsedData

/-! ## Derived definitions used by the theorems -/

/-- A compact table with 100 data cells, 41 of them blank (helper). -/
def ex41 : String := "h|h|h|h|h|h|h|h|h|h\n|||||||||\n|||||||||\n|||||||||\n|||||||||\nx|x|x|x|x|x|x|x|x|\nx|x|x|x|x|x|x|x|x|x\nx|x|x|x|x|x|x|x|x|x\nx|x|x|x|x|x|x|x|x|x\nx|x|x|x|x|x|x|x|x|x\nx|x|x|x|x|x|x|x|x|x"
/-- A character the bracket scanner ignores outside strings (helper). -/
def plainChar (c : Char) : Bool :=
  ! (c = '\\' || c = '"' || c = '{' || c = '}' || c = '[' || c = ']')
/-- A table cell as the markdown fallback produces them: trimmed and
non-blank. -/
def goodCell (s : String) : Prop := jsTrim s = s ∧ s ≠ ""
/-- Every header and row cell of the table is a trimmed non-blank
string. -/
def goodTable (t : CTable) : Prop :=
  (∀ h ∈ t.headers, ∃ s, h = JVal.str s ∧ goodCell s) ∧
  (∀ r ∈ t.rows, ∃ cells : List String,
    r = JVal.arr (cells.map JVal.str) ∧ ∀ c ∈ cells, goodCell c)
/-- The cell invariant over the running state of the markdown scan. -/
def goodState (st : MdState) : Prop :=
  (∀ t ∈ st.tables, goodTable t) ∧ (∀ c ∈ st.tableHeaders, goodCell c) ∧
  (∀ r ∈ st.tableRows, ∀ c ∈ r, goodCell c)
/-- The remaining pool collected from lines that no heuristic matched:
blank lines vanish, intro-filler lines are dropped, the rest are cleaned
of bold markers. -/
def proseAcc (lines : List String) : List String :=
  lines.filterMap fun l =>
    if jsTrim l = "" then none
    else if isIntroLine (jsTrim l) = true then none
    else some (cleanBoldMarkers (jsTrim l))
/-- The cleaned version of the input that the fallback stores in
`rawText` for pure prose. -/
def cleanedProse (text : String) : String := joinNL (proseAcc (splitOnChar '\n' text))

/-! ## Theorems -/


/-! ## Theorems -/

/-- C3: In the Empty-Table Quality Gate, a queued table is replaced by its
re-extraction candidate only when the empty-cell ratio of the candidate is
strictly lower than that of the original: a candidate whose ratio is equal to
(or higher than) the ratio of the original is discarded and the original kept, and a
replacement that did happen had a strictly lower candidate ratio. -/
theorem gate_strict_improvement (old cand : JVal) :
    (∀ s, getField cand "data" = some (.str s) →
      replRatio (dataStringOf old) ≤ replRatio s → mergeStep old cand = old) ∧
    (mergeStep old cand ≠ old →
      ∃ s, getField cand "data" = some (.str s) ∧ s ≠ "" ∧
        replRatio s < replRatio (dataStringOf old)) := by
  constructor
  · intro s hs hle
    simp only [mergeStep, hs]
    split_ifs with h1 h2 h3
    · exact absurd h3 (not_lt.mpr hle)
    · rfl
    · rfl
    · rfl
  · intro hne
    unfold mergeStep at hne
    split at hne
    · split at hne
      · rename_i s heq
        split at hne
        · rename_i hs
          split at hne
          · rename_i hr
            exact ⟨s, heq, hs, hr⟩
          · exact absurd rfl hne
        · exact absurd rfl hne
      · exact absurd rfl hne
    · exact absurd rfl hne

/-- Evaluation form of `replRatio` (shared helper). -/
theorem replRatio_stats (d : String) :
    replRatio d = if 0 < (replStats d).1 then ((replStats d).2 : ℚ) / (replStats d).1 else 1 :=
  rfl

/-- Evaluation form of `queueRatio` (shared helper). -/
theorem queueRatio_stats (d : String) :
    queueRatio d = if 0 < (queueStats d).1 then ((queueStats d).2 : ℚ) / (queueStats d).1 else 0 :=
  rfl

/-- Witness for C3: two tables at the same replacement-pass ratio (one
blank cell of two); the gate keeps the original. -/
theorem gate_strict_improvement_witness :
    mergeStep (.obj [("data", .str "A|B\n1|"), ("mark", .str "old")])
              (.obj [("data", .str "A|B\n|2"), ("mark", .str "new")]) =
      .obj [("data", .str "A|B\n1|"), ("mark", .str "old")] ∧
    replRatio "A|B\n|2" = replRatio "A|B\n1|" := by
  have h2 : replStats "A|B\n|2" = (2, 1) := rfl
  have h1 : replStats "A|B\n1|" = (2, 1) := rfl
  have heq : replRatio "A|B\n|2" = replRatio "A|B\n1|" := by
    rw [replRatio_stats, replRatio_stats, h1, h2]
  refine ⟨(gate_strict_improvement _ _).1 "A|B\n|2" rfl ?_, heq⟩
  show replRatio (dataStringOf _) ≤ _
  rw [show dataStringOf (JVal.obj [("data", .str "A|B\n1|"), ("mark", .str "old")]) =
        "A|B\n1|" from rfl, heq.symm]

/-- C4: a table whose compact data string is truthy and has more than one
non-blank line is queued for re-extraction exactly when its queuing-pass
empty-cell ratio is strictly greater than two fifths (the source literal
`0.4`). -/
theorem gate_threshold (t : JVal) (d : String)
    (hdata : getField t "data" = some (.str d)) (hne : d ≠ "")
    (hlines : 1 < (nonBlankLines d).length) :
    tableQueued t = true ↔ queueRatio d > 2 / 5 := by
  unfold tableQueued
  rw [hdata]
  simp [hne, hlines]

/-- The 40-percent example table of the threshold property (helper). -/
theorem queueRatio_ex40 : queueRatio "A|B|C|D|E\n1|2|3||" = 2 / 5 := by
  rw [queueRatio_stats, show queueStats "A|B|C|D|E\n1|2|3||" = (5, 2) from rfl]
  norm_num


/-- The 41-percent example table of the threshold property (helper). -/
theorem queueRatio_ex41 : queueRatio ex41 = 41 / 100 := by
  rw [queueRatio_stats, show queueStats ex41 = (100, 41) from rfl]
  norm_num

/-- Witness for C4: a table with exactly 40 percent blank data cells (two
of five) is not queued; one with exactly 41 percent (41 of 100) is. -/
theorem gate_threshold_witness :
    tableQueued (.obj [("data", .str "A|B|C|D|E\n1|2|3||")]) = false ∧
    queueRatio "A|B|C|D|E\n1|2|3||" = 2 / 5 ∧
    tableQueued (.obj [("data", .str ex41)]) = true ∧
    queueRatio ex41 = 41 / 100 := by
  refine ⟨?_, queueRatio_ex40, ?_, queueRatio_ex41⟩
  · have h := gate_threshold (.obj [("data", .str "A|B|C|D|E\n1|2|3||")])
      "A|B|C|D|E\n1|2|3||" rfl (by decide) (by decide)
    refine Bool.eq_false_iff.mpr fun hq => absurd (h.mp hq) ?_
    rw [queueRatio_ex40]
    norm_num
  · refine (gate_threshold (.obj [("data", .str ex41)]) ex41 rfl (by decide) (by decide)).mpr ?_
    rw [queueRatio_ex41]
    norm_num

/-- C7: when the network round-trip of the quality gate raises (modelled by an
absent response), or when the response text yields no parseable JSON even
after repair, the gate returns its input unchanged — no table is replaced
or partially mutated on the error path. -/
theorem gate_error_path_unchanged :
    (∀ parsedData, reExtractEmptyTables parsedData none = parsedData) ∧
    (∀ parsedData raw, parseReExtractResponse raw = none →
      reExtractEmptyTables parsedData (some raw) = parsedData) := by
  constructor
  · intro parsedData
    unfold reExtractEmptyTables
    split
    · rfl
    · dsimp only
      split <;> rfl
  · intro parsedData raw hraw
    unfold reExtractEmptyTables
    split
    · rfl
    · dsimp only
      rw [hraw]
      split <;> rfl

/-- Witness for C7: a gate state with one low-quality table and a
response that is not JSON at all comes back unchanged. -/
theorem gate_error_path_unchanged_witness :
    reExtractEmptyTables
        (.obj [("tables", .arr [.obj [("data", .str "A|B\n|")]])]) (some "no json here") =
      .obj [("tables", .arr [.obj [("data", .str "A|B\n|")]])] :=
  gate_error_path_unchanged.2 _ "no json here" rfl

/-- A split never yields the empty list (helper). -/
theorem splitOnCharL_ne_nil (sep : Char) (cs : List Char) : splitOnCharL sep cs ≠ [] := by
  induction cs with
  | nil => simp [splitOnCharL]
  | cons c rest ih =>
    simp only [splitOnCharL]
    split
    · simp
    · split
      · simp
      · simp

/-- A split has at least one piece (helper). -/
theorem splitOnChar_length_pos (sep : Char) (s : String) : 0 < (splitOnChar sep s).length := by
  unfold splitOnChar
  rw [List.length_map]
  exact List.length_pos.mpr (splitOnCharL_ne_nil sep s.toList)

/-- Counting matches by index over a full range equals counting them by
element (helper). -/
theorem filter_range_getD {α : Type} (p : α → Bool) (dflt : α) (l : List α) :
    ((List.range l.length).filter fun c => p (l.getD c dflt)).length = (l.filter p).length := by
  induction l with
  | nil => rfl
  | cons x xs ih =>
    rw [List.length_cons, List.range_succ_eq_map, List.filter_cons, List.filter_cons]
    simp only [List.getD_cons_zero, List.filter_map, List.length_map]
    have hcomp :
        ((List.range xs.length).filter fun c => p ((x :: xs).getD (Nat.succ c) dflt)).length =
          (xs.filter p).length := by
      simp only [List.getD_cons_succ]
      exact ih
    split
    · simp only [Function.comp_def]
      rw [List.length_cons, List.length_map, hcomp, List.length_cons]
    · simp only [Function.comp_def]
      rw [List.length_map, hcomp]

/-- When a row is at least as wide as the header, the queuing-pass row
totals are the plain totals of the row (helper). -/
theorem rowQueueCounts_of_le (hc : Nat) (cells : List String) (h : hc ≤ cells.length) :
    rowQueueCounts hc cells = (cells.length, (cells.filter isEmptyCell).length) := by
  unfold rowQueueCounts
  dsimp only
  rw [Nat.max_eq_left h, filter_range_getD]

/-- On a row at least as wide as the header, one queuing-pass fold step
equals one replacement-pass fold step (helper). -/
theorem queueStep_eq_replStep (hc : Nat) (acc : Nat × Nat) (row : String)
    (h : hc ≤ (splitOnChar '|' row).length) :
    queueStep hc acc row = replStep acc row := by
  unfold queueStep replStep
  rw [rowQueueCounts_of_le hc _ h]

/-- The two folds agree on rows that are all at least header wide
(helper). -/
theorem foldl_queueStep_eq (hc : Nat) :
    ∀ (rows : List String) (acc : Nat × Nat),
      (∀ r ∈ rows, hc ≤ (splitOnChar '|' r).length) →
      rows.foldl (queueStep hc) acc = rows.foldl replStep acc := by
  intro rows
  induction rows with
  | nil => intro acc _; rfl
  | cons r rest ih =>
    intro acc hall
    rw [List.foldl_cons, List.foldl_cons,
        queueStep_eq_replStep hc acc r (hall r (by simp))]
    exact ih _ fun x hx => hall x (by simp [hx])

/-- The replacement-pass total never shrinks (helper). -/
theorem foldl_replStep_fst_mono : ∀ (rows : List String) (acc : Nat × Nat),
    acc.1 ≤ (rows.foldl replStep acc).1 := by
  intro rows
  induction rows with
  | nil => intro acc; exact le_refl _
  | cons r rest ih =>
    intro acc
    refine le_trans ?_ (ih (replStep acc r))
    unfold replStep
    simp

/-- The replacement-pass total grows across a nonempty row list
(helper). -/
theorem foldl_replStep_fst_pos (rows : List String) (acc : Nat × Nat) (h : rows ≠ []) :
    acc.1 < (rows.foldl replStep acc).1 := by
  cases rows with
  | nil => exact absurd rfl h
  | cons r rest =>
    rw [List.foldl_cons]
    refine lt_of_lt_of_le ?_ (foldl_replStep_fst_mono rest _)
    unfold replStep
    have := splitOnChar_length_pos '|' r
    simp
    omega

/-- C5 (amended): the empty-cell ratio of the replacement step agrees
with the ratio of the queuing step on every compact data string in which
each data row has at least as many pipe-separated cells as the header row
and at least one data row exists; in general the two formulas differ (the
queuing step pads each row to the header width, the replacement step does
not, and their defaults on zero cells differ). -/
theorem queue_repl_ratio_agree (d : String)
    (hlen : 1 < (nonBlankLines d).length)
    (hwide : ∀ row ∈ (nonBlankLines d).tail,
      (splitOnChar '|' ((nonBlankLines d).headD "")).length ≤ (splitOnChar '|' row).length) :
    queueRatio d = replRatio d := by
  cases hnl : nonBlankLines d with
  | nil => rw [hnl] at hlen; simp at hlen
  | cons h rows =>
    rw [hnl] at hwide hlen
    have hrows : rows ≠ [] := by
      simp only [List.length_cons] at hlen
      exact List.ne_nil_of_length_pos (by omega)
    have hq : queueStats d = rows.foldl (queueStep (splitOnChar '|' h).length) (0, 0) := by
      unfold queueStats
      rw [hnl]
    have hr : replStats d = rows.foldl replStep (0, 0) := by
      unfold replStats
      rw [hnl]
    have hfold : rows.foldl (queueStep (splitOnChar '|' h).length) (0, 0) =
        rows.foldl replStep (0, 0) := by
      refine foldl_queueStep_eq _ rows (0, 0) fun r hr => ?_
      have := hwide r (by simpa using hr)
      simpa using this
    have hpos : 0 < (rows.foldl replStep (0, 0)).1 :=
      foldl_replStep_fst_pos rows (0, 0) hrows
    rw [queueRatio_stats, replRatio_stats, hq, hr, hfold, if_pos hpos, if_pos hpos]

/-- Witness for C5: on a two-column table with one blank cell the two
formulas both compute one half. -/
theorem queue_repl_ratio_agree_witness :
    queueRatio "A|B\n1|" = replRatio "A|B\n1|" ∧ replRatio "A|B\n1|" = 1 / 2 := by
  constructor
  · exact queue_repl_ratio_agree "A|B\n1|" (by decide) (by decide)
  · rw [replRatio_stats, show replStats "A|B\n1|" = (2, 1) from rfl]
    norm_num

/-- Counterexample for C5: on a ragged table (header of three cells, one
data row of two) the queuing step counts the missing cell as blank and
yields one third, while the replacement step yields zero. -/
theorem queue_repl_ratio_differ :
    queueRatio "A|B|C\n1|2" = 1 / 3 ∧ replRatio "A|B|C\n1|2" = 0 ∧
    queueRatio "A|B|C\n1|2" ≠ replRatio "A|B|C\n1|2" := by
  have h1 : queueRatio "A|B|C\n1|2" = 1 / 3 := by
    rw [queueRatio_stats, show queueStats "A|B|C\n1|2" = (3, 1) from rfl]
    norm_num
  have h2 : replRatio "A|B|C\n1|2" = 0 := by
    rw [replRatio_stats, show replStats "A|B|C\n1|2" = (2, 0) from rfl]
    norm_num
  refine ⟨h1, h2, ?_⟩
  rw [h1, h2]
  norm_num

/-- A non-null value passes the normalizer without raising (helper). -/
theorem parseCompactTableE_not_null (t : JVal) (h : jvIsNull t = false) :
    parseCompactTableE t = .ok (parseCompactTable t) := by
  cases t with
  | null => simp [jvIsNull] at h
  | bool b => rfl
  | num s => rfl
  | str s => rfl
  | arr xs => rfl
  | obj fs => rfl

/-- With no `null` element the table map raises nothing and keeps the
successful normalizations (helper). -/
theorem tablesE_ok (ts : List JVal) (h : ∀ t ∈ ts, jvIsNull t = false) :
    tablesE ts = .ok (ts.filterMap parseCompactTable) := by
  induction ts with
  | nil => rfl
  | cons t rest ih =>
    have ht : jvIsNull t = false := h t (by simp)
    have hrest : ∀ u ∈ rest, jvIsNull u = false := fun u hu => h u (by simp [hu])
    rw [tablesE, parseCompactTableE_not_null t ht, ih hrest]
    dsimp only
    cases hpt : parseCompactTable t with
    | none => simp [List.filterMap_cons, hpt]
    | some c => simp [List.filterMap_cons, hpt]

/-- C6 (amended): when the cleaned text parses as JSON to a value in
which at least one of `keyValuePairs`, `sections`, `tables`, `title`
holds a truthy value (an empty string or other falsy value under a
present key does not qualify), and no element of the `tables` array is
`null`, the parser takes the canonical path: `title` and `documentType`
are copied through when truthy, the key-value pairs and sections are the
parsed arrays (defaulting to empty when the field is not an array), each
table element runs through the normalizer with failing elements
discarded, and `rawText` is absent.  A `null` table element instead
makes the normalizer raise a TypeError that the parser propagates — the
code bug recorded at C1. -/
theorem canonical_shape (text : String) (parsed : JVal)
    (hp : jsonParse (cleanOf text) = some parsed)
    (hrec : recognizable parsed = true)
    (hnn : ∀ t ∈ asArrElems (getField parsed "tables"), jvIsNull t = false) :
    extractFromParsedE parsed = .ok (some
      { title := truthyOpt (getField parsed "title"),
        documentType := truthyOpt (getField parsed "documentType"),
        keyValuePairs := asArrElems (getField parsed "keyValuePairs"),
        sections := asArrElems (getField parsed "sections"),
        tables := (asArrElems (getField parsed "tables")).filterMap parseCompactTable,
        rawText := none }) ∧
    parseExtractedTextE text = .ok
      { title := truthyOpt (getField parsed "title"),
        documentType := truthyOpt (getField parsed "documentType"),
        keyValuePairs := asArrElems (getField parsed "keyValuePairs"),
        sections := asArrElems (getField parsed "sections"),
        tables := (asArrElems (getField parsed "tables")).filterMap parseCompactTable,
        rawText := none } := by
  have h1 : extractFromParsedE parsed = .ok (some
      { title := truthyOpt (getField parsed "title"),
        documentType := truthyOpt (getField parsed "documentType"),
        keyValuePairs := asArrElems (getField parsed "keyValuePairs"),
        sections := asArrElems (getField parsed "sections"),
        tables := (asArrElems (getField parsed "tables")).filterMap parseCompactTable,
        rawText := none }) := by
    unfold extractFromParsedE
    rw [if_pos hrec, tablesE_ok _ hnn]
  refine ⟨h1, ?_⟩
  unfold parseExtractedTextE
  dsimp only
  rw [hp]
  dsimp only
  rw [h1]

/-- Witness for C6: a concrete object with a truthy title takes the
canonical path, including a malformed (but non-null) table being
discarded by the normalizer without a raise. -/
theorem canonical_shape_witness :
    extractFromParsedE (.obj [("title", .str "X"), ("tables", .arr [.obj [("bogus", .num "1")]])]) =
      .ok (some
        { title := some (.str "X"), documentType := none, keyValuePairs := [],
          sections := [], tables := [], rawText := none }) ∧
    parseExtractedTextE "\x7b\"title\":\"X\",\"tables\":[\x7b\"bogus\":1\x7d]\x7d" =
      .ok
        { title := some (.str "X"), documentType := none, keyValuePairs := [],
          sections := [], tables := [], rawText := none } :=
  canonical_shape _ (.obj [("title", .str "X"), ("tables", .arr [.obj [("bogus", .num "1")]])])
    rfl rfl (by decide)

/-- Counterexample for C6: an object that contains the key `title` bound
to the empty string (falsy) is not treated as the canonical shape — the
parser falls back to the markdown parser instead. -/
theorem canonical_shape_key_not_enough :
    getField (.obj [("title", .str "")]) "title" = some (.str "") ∧
    extractFromParsed (.obj [("title", .str "")]) = none ∧
    jsonParse (cleanOf "\x7b\"title\":\"\"\x7d") = some (.obj [("title", .str "")]) ∧
    parseExtractedText "\x7b\"title\":\"\"\x7d" = parseMarkdownText "\x7b\"title\":\"\"\x7d" :=
  ⟨rfl, rfl, rfl, rfl⟩

/-- C8 (amended): `rawText` is absent on the canonical JSON path, and in
the markdown fallback it is fed only by lines that no heuristic matched
outside any open section; it is not mutually exclusive with the
structured fields — the fallback can return a nonempty `rawText`
alongside nonempty structured fields. -/
theorem rawText_not_exclusive :
    (∀ parsed r, extractFromParsed parsed = some r → r.rawText = none) ∧
    ((parseExtractedText "Qqq words\nDept: ICU").keyValuePairs ≠ [] ∧
     (parseExtractedText "Qqq words\nDept: ICU").rawText = some "Qqq words") := by
  refine ⟨?_, ?_, rfl⟩
  · intro parsed r h
    unfold extractFromParsed at h
    split at h
    · cases h
      rfl
    · cases h
  · rw [show (parseExtractedText "Qqq words\nDept: ICU").keyValuePairs =
        [kvObj "Dept" "ICU"] from rfl]
    exact List.cons_ne_nil _ _

/-- Witness for C8: the canonical path applied to a concrete object
leaves `rawText` absent. -/
theorem rawText_not_exclusive_witness :
    (({ title := some (.str "T"), documentType := none, keyValuePairs := [],
        sections := [], tables := [], rawText := none } : StructuredExtraction)).rawText = none :=
  rawText_not_exclusive.1 (.obj [("title", .str "T")]) _ rfl

/-- Counterexample for C8: a two-line input where one line is captured as
a key-value pair and the other, unmatched, lands in `rawText`, so a
nonempty `rawText` coexists with a nonempty `keyValuePairs`. -/
theorem rawText_coexists_with_kv :
    (parseExtractedText "Zzz prose\nName: John").keyValuePairs = [kvObj "Name" "John"] ∧
    (parseExtractedText "Zzz prose\nName: John").rawText = some "Zzz prose" ∧
    [kvObj "Name" "John"] ≠ ([] : List JVal) ∧ some "Zzz prose" ≠ (none : Option String) :=
  ⟨rfl, rfl, List.cons_ne_nil _ _, by simp⟩

/-- Counterexample for C1: the parser is not total.  On this valid JSON
input — recognizable, since its `tables` field is a truthy array, but
with a `null` table element — the `table.data` access of the normalizer
raises a TypeError; the `try` of line 51 catches that first raise, the
repair of the catch block reproduces the same parsed object (the text is
already balanced, so no strip or closer changes it), and the second
`extractFromParsed` call at line 59, inside the catch block with no
enclosing `try`, raises the same TypeError out of `parseExtractedText`:
the markdown fallback is never reached and no `StructuredExtraction` is
returned. -/
theorem parse_throws_on_null_table :
    jsonParse (cleanOf "\x7b\"title\":\"X\",\"tables\":[null]\x7d") =
      some (.obj [("title", .str "X"), ("tables", .arr [.null])]) ∧
    extractFromParsedE (.obj [("title", .str "X"), ("tables", .arr [.null])]) =
      .error () ∧
    parseExtractedTextE "\x7b\"title\":\"X\",\"tables\":[null]\x7d" = .error () :=
  ⟨rfl, rfl, rfl⟩

/-- One scan step peels one character (helper). -/
theorem scanList_cons (c : Char) (cs : List Char) (st : ScanSt) :
    scanList (c :: cs) st = scanList cs (scanStep st c) := rfl

/-- The scan composes over append (helper). -/
theorem scanList_append (xs ys : List Char) (st : ScanSt) :
    scanList (xs ++ ys) st = scanList ys (scanList xs st) := by
  unfold scanList
  exact List.foldl_append _ _ _ _


/-- The scanner ignores a plain character outside a string (helper). -/
theorem scanStep_plain (b k : Int) (c : Char) (h : plainChar c = true) :
    scanStep ⟨false, false, b, k⟩ c = ⟨false, false, b, k⟩ := by
  have h' : c ≠ '\\' ∧ c ≠ '"' ∧ c ≠ '{' ∧ c ≠ '}' ∧ c ≠ '[' ∧ c ≠ ']' := by
    simpa [plainChar, not_or, and_assoc] using h
  obtain ⟨h1, h2, h3, h4, h5, h6⟩ := h'
  simp [scanStep, h1, h2, h3, h4, h5, h6]

/-- Inside a string the scanner ignores everything but a backslash or
quote (helper). -/
theorem scanStep_inStr (b k : Int) (c : Char) (h1 : ¬ c = '\\') (h2 : ¬ c = '"') :
    scanStep ⟨true, false, b, k⟩ c = ⟨true, false, b, k⟩ := by
  simp [scanStep, h1, h2]

/-- A run of plain characters leaves the scanner state unchanged
(helper). -/
theorem scanList_plain (pre : List Char) (h : ∀ c ∈ pre, plainChar c = true) (b k : Int) :
    scanList pre ⟨false, false, b, k⟩ = ⟨false, false, b, k⟩ := by
  induction pre with
  | nil => rfl
  | cons c cs ih =>
    rw [scanList_cons, scanStep_plain b k c (h c (by simp))]
    exact ih fun x hx => h x (by simp [hx])

/-- Dropping a plain-character prefix does not change the scan
(helper). -/
theorem scan_dropWhile (p : Char → Bool) (hp : ∀ c, p c = true → plainChar c = true) :
    ∀ (cs : List Char) (b k : Int),
      scanList cs ⟨false, false, b, k⟩ = scanList (cs.dropWhile p) ⟨false, false, b, k⟩ := by
  intro cs
  induction cs with
  | nil => intro b k; rfl
  | cons c rest ih =>
    intro b k
    by_cases hc : p c = true
    · rw [List.dropWhile_cons_of_pos hc, scanList_cons, scanStep_plain b k c (hp c hc)]
      exact ih b k
    · rw [List.dropWhile_cons_of_neg hc]

/-- JSON whitespace is plain for the scanner (helper). -/
theorem jsonWs_plain (c : Char) (h : jsonWs c = true) : plainChar c = true := by
  simp only [jsonWs, Bool.or_eq_true, decide_eq_true_eq] at h
  rcases h with ((h | h) | h) | h <;> subst h <;> rfl

/-- Skipping JSON whitespace does not change the scan (helper). -/
theorem scan_skipWs (cs : List Char) (b k : Int) :
    scanList cs ⟨false, false, b, k⟩ = scanList (skipWs cs) ⟨false, false, b, k⟩ :=
  scan_dropWhile jsonWs jsonWs_plain cs b k

/-- A verified prefix decomposes the list (helper). -/
theorem startsWithL_decomp (p cs : List Char) (h : startsWithL p cs = true) :
    cs = p ++ cs.drop p.length := by
  induction p generalizing cs with
  | nil => simp
  | cons x xs ih =>
    cases cs with
    | nil => simp [startsWithL] at h
    | cons c rest =>
      simp only [startsWithL, Bool.and_eq_true, decide_eq_true_eq] at h
      obtain ⟨h1, h2⟩ := h
      subst h1
      rw [List.length_cons, List.drop_succ_cons, List.cons_append, ← ih rest h2]

/-- A hex digit is neither a backslash nor a quote (helper). -/
theorem isHexDigit_nb (c : Char) (h : isHexDigit c = true) : ¬ c = '\\' ∧ ¬ c = '"' := by
  constructor <;> intro he <;> subst he <;> exact absurd h (by decide)

/-- A mapped string-body parse keeps its remainder (helper). -/
theorem strBody_map_rem {n : Nat} {R body rem : List Char} {g : List Char × List Char → List Char}
    (h : Option.map (fun p => (g p, p.2)) (parseStrBody n R) = some (body, rem)) :
    ∃ b1, parseStrBody n R = some (b1, rem) := by
  rcases Option.map_eq_some'.mp h with ⟨⟨p1, p2⟩, hp, heq⟩
  injection heq with hb hr
  have hr2 : p2 = rem := hr
  exact ⟨p1, by rw [hp, hr2]⟩

/-- Scanning a unicode escape inside a string preserves the state
(helper). -/
theorem scan_u4 (h1 h2 h3 h4 : Char) (tail : List Char) (b k : Int)
    (hx : (isHexDigit h1 && isHexDigit h2 && isHexDigit h3 && isHexDigit h4) = true) :
    scanList ('\\' :: 'u' :: h1 :: h2 :: h3 :: h4 :: tail) ⟨true, false, b, k⟩ =
      scanList tail ⟨true, false, b, k⟩ := by
  simp only [Bool.and_eq_true] at hx
  obtain ⟨⟨⟨hx1, hx2⟩, hx3⟩, hx4⟩ := hx
  have e1 : scanStep ⟨true, false, b, k⟩ '\\' = ⟨true, true, b, k⟩ := rfl
  have e2 : scanStep ⟨true, true, b, k⟩ 'u' = ⟨true, false, b, k⟩ := rfl
  rw [scanList_cons, e1, scanList_cons, e2, scanList_cons,
      scanStep_inStr b k h1 (isHexDigit_nb h1 hx1).1 (isHexDigit_nb h1 hx1).2,
      scanList_cons, scanStep_inStr b k h2 (isHexDigit_nb h2 hx2).1 (isHexDigit_nb h2 hx2).2,
      scanList_cons, scanStep_inStr b k h3 (isHexDigit_nb h3 hx3).1 (isHexDigit_nb h3 hx3).2,
      scanList_cons, scanStep_inStr b k h4 (isHexDigit_nb h4 hx4).1 (isHexDigit_nb h4 hx4).2]

/-- Scanning the text of a parsed JSON string body carries the scanner
from inside the string back out, with counts untouched: the scanner
tracks escapes exactly as the grammar does (helper). -/
theorem scan_parseStrBody : ∀ (fuel : Nat) (cs body rem : List Char),
    parseStrBody fuel cs = some (body, rem) →
    ∀ b k, scanList cs ⟨true, false, b, k⟩ = scanList rem ⟨false, false, b, k⟩ := by
  intro fuel
  induction fuel with
  | zero => intro cs body rem h; exact absurd h (by simp [parseStrBody])
  | succ n ih =>
    intro cs body rem h b k
    cases cs with
    | nil => exact absurd h (by simp [parseStrBody])
    | cons c rest =>
      simp only [parseStrBody] at h
      by_cases hq : c = '"'
      · subst hq
        rw [if_pos rfl] at h
        cases h
        rfl
      · rw [if_neg hq] at h
        by_cases hbs : c = '\\'
        · subst hbs
          rw [if_pos rfl] at h
          split at h
          · exact absurd h (by simp)
          · rename_i h1 h2 h3 h4 rest2
            rw [scanList_cons]
            have e1 : scanStep ⟨true, false, b, k⟩ '\\' = ⟨true, true, b, k⟩ := rfl
            rw [e1, scanList_cons]
            have e2 : scanStep ⟨true, true, b, k⟩ 'u' = ⟨true, false, b, k⟩ := rfl
            rw [e2]
            split at h
            · rename_i hx
              have hscan : scanList (h1 :: h2 :: h3 :: h4 :: rest2) ⟨true, false, b, k⟩ =
                  scanList rest2 ⟨true, false, b, k⟩ := by
                simp only [Bool.and_eq_true] at hx
                obtain ⟨⟨⟨hx1, hx2⟩, hx3⟩, hx4⟩ := hx
                rw [scanList_cons, scanStep_inStr b k h1 (isHexDigit_nb h1 hx1).1 (isHexDigit_nb h1 hx1).2,
                    scanList_cons, scanStep_inStr b k h2 (isHexDigit_nb h2 hx2).1 (isHexDigit_nb h2 hx2).2,
                    scanList_cons, scanStep_inStr b k h3 (isHexDigit_nb h3 hx3).1 (isHexDigit_nb h3 hx3).2,
                    scanList_cons, scanStep_inStr b k h4 (isHexDigit_nb h4 hx4).1 (isHexDigit_nb h4 hx4).2]
              rw [hscan]
              split at h
              · split at h
                · rename_i g1 g2 g3 g4 rest3
                  split at h
                  · rename_i hgx
                    split at h
                    · obtain ⟨b1, hp⟩ := strBody_map_rem h
                      rw [scan_u4 g1 g2 g3 g4 rest3 b k hgx]
                      exact ih rest3 b1 rem hp b k
                    · obtain ⟨b1, hp⟩ := strBody_map_rem h
                      exact ih _ b1 rem hp b k
                  · obtain ⟨b1, hp⟩ := strBody_map_rem h
                    exact ih _ b1 rem hp b k
                · obtain ⟨b1, hp⟩ := strBody_map_rem h
                  exact ih _ b1 rem hp b k
              · obtain ⟨b1, hp⟩ := strBody_map_rem h
                exact ih _ b1 rem hp b k
            · exact absurd h (by simp)
          · split at h
            · obtain ⟨b1, hp⟩ := strBody_map_rem h
              rw [scanList_cons,
                  show scanStep ⟨true, false, b, k⟩ '\\' = ⟨true, true, b, k⟩ from rfl,
                  scanList_cons,
                  show ∀ ch, scanStep ⟨true, true, b, k⟩ ch = ⟨true, false, b, k⟩ from
                    fun ch => rfl]
              exact ih _ b1 rem hp b k
            · exact absurd h (by simp)
        · rw [if_neg hbs] at h
          split at h
          · exact absurd h (by simp)
          · split at h
            · rename_i body1 rem1 hp
              cases h
              rw [scanList_cons, scanStep_inStr b k c hbs hq]
              exact ih rest body1 rem hp b k
            · exact absurd h (by simp)

/-- Unfolding of `plainChar` (helper). -/
theorem plainChar_iff (c : Char) :
    plainChar c = true ↔
      ¬ c = '\\' ∧ ¬ c = '"' ∧ ¬ c = '{' ∧ ¬ c = '}' ∧ ¬ c = '[' ∧ ¬ c = ']' := by
  simp [plainChar, not_or, and_assoc]

/-- A digit is plain for the scanner (helper). -/
theorem digit_plain (c : Char) (h : c.isDigit = true) : plainChar c = true := by
  refine (plainChar_iff c).mpr ⟨?_, ?_, ?_, ?_, ?_, ?_⟩ <;>
    (intro he; subst he; exact absurd h (by decide))

/-- A digit run decomposes its input into plain characters and the rest
(helper). -/
theorem digitRun_eq (cs ds r : List Char) (h : digitRun cs = (ds, r)) :
    cs = ds ++ r ∧ ∀ c ∈ ds, plainChar c = true := by
  unfold digitRun at h
  injection h with h1 h2
  subst h1
  subst h2
  exact ⟨(List.takeWhile_append_dropWhile _ _).symm,
    fun c hc => digit_plain c (List.mem_takeWhile_imp hc)⟩

/-- The exponent reader consumes exactly the plain characters of its
lexeme contribution (helper). -/
theorem finishExp_decomp : ∀ (pre cs lex rem : List Char),
    finishExp pre cs = some (lex, rem) →
    ∃ mid, lex = pre ++ mid ∧ cs = mid ++ rem ∧ ∀ c ∈ mid, plainChar c = true := by
  intro pre cs lex rem h
  unfold finishExp at h
  cases cs with
  | nil =>
    cases h
    exact ⟨[], by simp, by simp, by simp⟩
  | cons e rest =>
    dsimp only at h
    by_cases he : (e = 'e' || e = 'E') = true
    · rw [if_pos he] at h
      have heplain : plainChar e = true := by
        simp only [Bool.or_eq_true, decide_eq_true_eq] at he
        rcases he with he | he <;> subst he <;> rfl
      cases rest with
      | nil => simp [digitRun] at h
      | cons s r2 =>
        dsimp only at h
        by_cases hs : (s = '+' || s = '-') = true
        · rw [if_pos hs] at h
          dsimp only at h
          rcases hdig : digitRun r2 with ⟨ds, r⟩
          rw [hdig] at h
          dsimp only at h
          split at h
          · exact absurd h (by simp)
          · rename_i hds
            cases h
            obtain ⟨hr2, hdplain⟩ := digitRun_eq r2 ds rem hdig
            refine ⟨e :: s :: ds, by simp, ?_, ?_⟩
            · rw [hr2]
              simp
            · intro c hc
              simp only [List.mem_cons] at hc
              rcases hc with hc | hc | hc
              · subst hc; exact heplain
              · subst hc
                simp only [Bool.or_eq_true, decide_eq_true_eq] at hs
                rcases hs with hs | hs <;> subst hs <;> rfl
              · exact hdplain c hc
        · rw [if_neg hs] at h
          dsimp only at h
          rcases hdig : digitRun (s :: r2) with ⟨ds, r⟩
          rw [hdig] at h
          dsimp only at h
          split at h
          · exact absurd h (by simp)
          · rename_i hds
            cases h
            obtain ⟨hr2, hdplain⟩ := digitRun_eq (s :: r2) ds rem hdig
            refine ⟨e :: ds, by simp, ?_, ?_⟩
            · rw [hr2]
              simp
            · intro c hc
              simp only [List.mem_cons] at hc
              rcases hc with hc | hc
              · subst hc; exact heplain
              · exact hdplain c hc
    · rw [if_neg he] at h
      cases h
      exact ⟨[], by simp, by simp, by simp⟩

/-- A parsed number consumes exactly its spelling, all of it plain for
the scanner (helper). -/
theorem parseNum_decomp : ∀ (cs lex rem : List Char), parseNum cs = some (lex, rem) →
    cs = lex ++ rem ∧ ∀ c ∈ lex, plainChar c = true := by
  intro cs lex rem h
  unfold parseNum at h
  split at h
  rename_i x sign cs1 heqs
  have hsign : cs = sign ++ cs1 ∧ ∀ c ∈ sign, plainChar c = true := by
    split at heqs
    · injection heqs with e1 e2
      subst e1
      subst e2
      exact ⟨rfl, by intro c hc; simp only [List.mem_singleton] at hc; subst hc; rfl⟩
    · injection heqs with e1 e2
      subst e1
      subst e2
      exact ⟨rfl, by simp⟩
  obtain ⟨hcs, hsplain⟩ := hsign
  clear heqs
  cases cs1 with
  | nil => exact absurd h (by simp)
  | cons d tail =>
    dsimp only at h
    by_cases hd : d.isDigit = true
    · rw [if_neg (not_not_intro hd)] at h
      rcases hip : (if d = '0' then ([d], (d :: tail).tail) else digitRun (d :: tail)) with
        ⟨ip, cs2⟩
      rw [hip] at h
      dsimp only at h
      have hdt : d :: tail = ip ++ cs2 ∧ ∀ c ∈ ip, plainChar c = true := by
        split at hip
        · injection hip with e1 e2
          subst e1
          subst e2
          refine ⟨rfl, fun c hc => ?_⟩
          simp only [List.mem_singleton] at hc
          subst hc
          exact digit_plain _ hd
        · exact digitRun_eq _ _ _ hip
      obtain ⟨hdt, hiplain⟩ := hdt
      split at h
      · rename_i rest3
        rcases hdr : digitRun rest3 with ⟨ds2, r3⟩
        rw [hdr] at h
        dsimp only at h
        split at h
        · exact absurd h (by simp)
        · obtain ⟨mid, hlex, hr3, hmplain⟩ := finishExp_decomp _ _ _ _ h
          obtain ⟨hrest3, hd2plain⟩ := digitRun_eq _ _ _ hdr
          constructor
          · rw [hcs, hdt, hrest3, hr3, hlex]
            simp
          · intro c hc
            rw [hlex] at hc
            simp only [List.append_assoc, List.mem_append, List.mem_cons,
              List.mem_singleton] at hc
            rcases hc with hc | hc | (hc | hc) | hc
            · exact hsplain c hc
            · exact hiplain c hc
            · subst hc; rfl
            · exact hd2plain c hc
            · exact hmplain c hc
      · obtain ⟨mid, hlex, hcs2, hmplain⟩ := finishExp_decomp _ _ _ _ h
        constructor
        · rw [hcs, hdt, hcs2, hlex]
          simp
        · intro c hc
          rw [hlex] at hc
          simp only [List.append_assoc, List.mem_append] at hc
          rcases hc with hc | hc | hc
          · exact hsplain c hc
          · exact hiplain c hc
          · exact hmplain c hc
    · rw [if_pos hd] at h
      exact absurd h (by simp)

/-- Scanning a parsed number leaves the scanner state unchanged
(helper). -/
theorem scan_parseNum (cs lex rem : List Char) (h : parseNum cs = some (lex, rem)) (b k : Int) :
    scanList cs ⟨false, false, b, k⟩ = scanList rem ⟨false, false, b, k⟩ := by
  obtain ⟨hdec, hplain⟩ := parseNum_decomp cs lex rem h
  rw [hdec, scanList_append, scanList_plain lex hplain]

/-- The central balance property: reading one JSON value carries the
scanner state across the consumed text unchanged; reading the members of
an object or the items of an array additionally consumes the closing
bracket, decrementing the matching count (helper). -/
theorem scan_parse (fuel : Nat) :
    (∀ cs v rem, parseVal fuel cs = some (v, rem) →
      ∀ b k, scanList cs ⟨false, false, b, k⟩ = scanList rem ⟨false, false, b, k⟩) ∧
    (∀ cs acc v rem, parseMembers fuel cs acc = some (v, rem) →
      ∀ b k, scanList cs ⟨false, false, b, k⟩ = scanList rem ⟨false, false, b - 1, k⟩) ∧
    (∀ cs acc v rem, parseItems fuel cs acc = some (v, rem) →
      ∀ b k, scanList cs ⟨false, false, b, k⟩ = scanList rem ⟨false, false, b, k - 1⟩) := by
  induction fuel with
  | zero =>
    refine ⟨?_, ?_, ?_⟩
    · intro cs v rem h; exact absurd h (by simp [parseVal])
    · intro cs acc v rem h; exact absurd h (by simp [parseMembers])
    · intro cs acc v rem h; exact absurd h (by simp [parseItems])
  | succ n ih =>
    obtain ⟨ihV, ihM, ihI⟩ := ih
    refine ⟨?_, ?_, ?_⟩
    · intro cs v rem h b k
      cases cs with
      | nil => exact absurd h (by simp [parseVal])
      | cons c rest =>
        simp only [parseVal] at h
        by_cases h1 : c = '{'
        · subst h1
          rw [if_pos rfl] at h
          rw [scanList_cons,
              show scanStep ⟨false, false, b, k⟩ '{' = ⟨false, false, b + 1, k⟩ from rfl,
              scan_skipWs rest (b + 1) k]
          split at h
          · rename_i rest' heq
            cases h
            rw [heq, scanList_cons,
                show scanStep ⟨false, false, b + 1, k⟩ '}' = ⟨false, false, b + 1 - 1, k⟩ from rfl,
                show b + 1 - 1 = b from by omega]
          · have h2 := ihM (skipWs rest) [] v rem h (b + 1) k
            rw [show b + 1 - 1 = b from by omega] at h2
            exact h2
        · rw [if_neg h1] at h
          by_cases h2 : c = '['
          · subst h2
            rw [if_pos rfl] at h
            rw [scanList_cons,
                show scanStep ⟨false, false, b, k⟩ '[' = ⟨false, false, b, k + 1⟩ from rfl,
                scan_skipWs rest b (k + 1)]
            split at h
            · rename_i rest' heq
              cases h
              rw [heq, scanList_cons,
                  show scanStep ⟨false, false, b, k + 1⟩ ']' = ⟨false, false, b, k + 1 - 1⟩ from rfl,
                  show k + 1 - 1 = k from by omega]
            · have h3 := ihI (skipWs rest) [] v rem h b (k + 1)
              rw [show k + 1 - 1 = k from by omega] at h3
              exact h3
          · rw [if_neg h2] at h
            by_cases h3 : c = '"'
            · subst h3
              rw [if_pos rfl] at h
              split at h
              · rename_i body rem1 heq
                cases h
                rw [scanList_cons,
                    show scanStep ⟨false, false, b, k⟩ '"' = ⟨true, false, b, k⟩ from rfl]
                exact scan_parseStrBody _ rest body rem heq b k
              · exact absurd h (by simp)
            · rw [if_neg h3] at h
              by_cases h4 : c = 't'
              · subst h4
                rw [if_pos rfl] at h
                split at h
                · rename_i hs
                  cases h
                  rw [scanList_cons,
                      show scanStep ⟨false, false, b, k⟩ 't' = ⟨false, false, b, k⟩ from rfl]
                  conv_lhs => rw [startsWithL_decomp _ _ hs]
                  rw [scanList_append, scanList_plain _ (by decide) b k]
                  rfl
                · exact absurd h (by simp)
              · rw [if_neg h4] at h
                by_cases h5 : c = 'f'
                · subst h5
                  rw [if_pos rfl] at h
                  split at h
                  · rename_i hs
                    cases h
                    rw [scanList_cons,
                        show scanStep ⟨false, false, b, k⟩ 'f' = ⟨false, false, b, k⟩ from rfl]
                    conv_lhs => rw [startsWithL_decomp _ _ hs]
                    rw [scanList_append, scanList_plain _ (by decide) b k]
                    rfl
                  · exact absurd h (by simp)
                · rw [if_neg h5] at h
                  by_cases h6 : c = 'n'
                  · subst h6
                    rw [if_pos rfl] at h
                    split at h
                    · rename_i hs
                      cases h
                      rw [scanList_cons,
                          show scanStep ⟨false, false, b, k⟩ 'n' = ⟨false, false, b, k⟩ from rfl]
                      conv_lhs => rw [startsWithL_decomp _ _ hs]
                      rw [scanList_append, scanList_plain _ (by decide) b k]
                      rfl
                    · exact absurd h (by simp)
                  · rw [if_neg h6] at h
                    split at h
                    · split at h
                      · rename_i lex rem1 heq
                        cases h
                        exact scan_parseNum _ lex rem heq b k
                      · exact absurd h (by simp)
                    · exact absurd h (by simp)
    · intro cs acc v rem h b k
      cases cs with
      | nil => exact absurd h (by simp [parseMembers])
      | cons c rest =>
        simp only [parseMembers] at h
        by_cases h1 : c = '"'
        · subst h1
          rw [if_pos rfl] at h
          split at h
          · rename_i body rem1 heq
            rw [scanList_cons,
                show scanStep ⟨false, false, b, k⟩ '"' = ⟨true, false, b, k⟩ from rfl,
                scan_parseStrBody _ rest body rem1 heq b k, scan_skipWs rem1 b k]
            split at h
            · rename_i rem2 heq2
              rw [heq2, scanList_cons,
                  show scanStep ⟨false, false, b, k⟩ ':' = ⟨false, false, b, k⟩ from rfl,
                  scan_skipWs rem2 b k]
              split at h
              · rename_i v1 rem3 heq3
                rw [ihV (skipWs rem2) v1 rem3 heq3 b k, scan_skipWs rem3 b k]
                split at h
                · rename_i rem4 heq4
                  rw [heq4, scanList_cons,
                      show scanStep ⟨false, false, b, k⟩ ',' = ⟨false, false, b, k⟩ from rfl,
                      scan_skipWs rem4 b k]
                  exact ihM (skipWs rem4) _ v rem h b k
                · rename_i rem4 heq4
                  cases h
                  rw [heq4, scanList_cons,
                      show scanStep ⟨false, false, b, k⟩ '}' = ⟨false, false, b - 1, k⟩ from rfl]
                · exact absurd h (by simp)
              · exact absurd h (by simp)
            · exact absurd h (by simp)
          · exact absurd h (by simp)
        · rw [if_neg h1] at h
          exact absurd h (by simp)
    · intro cs acc v rem h b k
      simp only [parseItems] at h
      split at h
      · rename_i v1 rem1 heq
        rw [ihV cs v1 rem1 heq b k, scan_skipWs rem1 b k]
        split at h
        · rename_i rem2 heq2
          rw [heq2, scanList_cons,
              show scanStep ⟨false, false, b, k⟩ ',' = ⟨false, false, b, k⟩ from rfl,
              scan_skipWs rem2 b k]
          exact ihI (skipWs rem2) _ v rem h b k
        · rename_i rem2 heq2
          cases h
          rw [heq2, scanList_cons,
              show scanStep ⟨false, false, b, k⟩ ']' = ⟨false, false, b, k - 1⟩ from rfl]
        · exact absurd h (by simp)
      · exact absurd h (by simp)

/-- A string accepted by the model of `JSON.parse` scans to the initial
state: quotes are balanced and the net bracket counts are zero
(helper). -/
theorem jsonParseL_balanced (cs : List Char) (v : JVal) (h : jsonParseL cs = some v) :
    scanList cs ScanSt.init = ScanSt.init := by
  unfold jsonParseL at h
  split at h
  · rename_i v1 rest heq
    split at h
    · rename_i hrest
      cases h
      show scanList cs ⟨false, false, 0, 0⟩ = ⟨false, false, 0, 0⟩
      simp only [skipWs] at hrest
      rw [scan_skipWs cs 0 0, (scan_parse _).1 (skipWs cs) v rest heq 0 0,
          scan_dropWhile jsonWs jsonWs_plain rest 0 0, hrest]
      rfl
    · exact absurd h (by simp)
  · exact absurd h (by simp)

/-- C2 (amended): on any string whose trimmed text is valid JSON and on
which the three trailing-fragment strips of the repair routine make no
change, `repairTruncatedJSON` returns exactly the value `JSON.parse`
returns: the balance scan of a valid text is neutral, so the routine
parses the trimmed text unchanged on its first attempt. -/
theorem repair_identity_on_valid (s : String) (v : JVal)
    (hstrip : stripPass (jsTrimL s.toList) = jsTrimL s.toList)
    (hvalid : jsonParseL (jsTrimL s.toList) = some v) :
    repairTruncatedJSON s = some v := by
  unfold repairTruncatedJSON
  dsimp only
  rw [hstrip, jsonParseL_balanced _ _ hvalid,
      show closers ScanSt.init = [] from rfl, List.append_nil, hvalid]

/-- Witness for C2: a small valid object repairs to its own parse. -/
theorem repair_identity_on_valid_witness :
    stripPass (jsTrimL ("\x7b\"a\":1\x7d" : String).toList) =
      jsTrimL ("\x7b\"a\":1\x7d" : String).toList ∧
    jsonParseL (jsTrimL ("\x7b\"a\":1\x7d" : String).toList) = some (.obj [("a", .num "1")]) ∧
    repairTruncatedJSON "\x7b\"a\":1\x7d" = some (.obj [("a", .num "1")]) :=
  ⟨rfl, rfl, repair_identity_on_valid _ _ rfl rfl⟩

/-- Counterexample for C2: the four-character valid JSON text consisting
of a quoted string that ends in a comma trips the trailing-incomplete
key-value strip, and repair returns a different value than `JSON.parse`
(the final comma of the string content is lost). -/
theorem repair_not_identity_on_valid :
    jsonParse "\"a,\"" = some (.str "a,") ∧
    repairTruncatedJSON "\"a,\"" = some (.str "a") ∧
    (JVal.str "a," = JVal.str "a" → False) :=
  ⟨rfl, rfl, by intro h; injection h with h2; exact absurd h2 (by decide)⟩

/-- Dropping a prefix never lengthens a list (helper). -/
theorem dropWhile_len_le (p : Char → Bool) (l : List Char) :
    (l.dropWhile p).length ≤ l.length := by
  induction l with
  | nil => exact le_refl _
  | cons c rest ih =>
    by_cases hc : p c = true
    · rw [List.dropWhile_cons_of_pos hc]
      exact le_trans ih (by simp)
    · rw [List.dropWhile_cons_of_neg hc]

/-- A list fixed by a dropWhile has a head that fails the predicate
(helper). -/
theorem dropWhile_head_false {p : Char → Bool} {c : Char} {l : List Char}
    (h : List.dropWhile p (c :: l) = c :: l) : p c = false := by
  by_cases hc : p c = true
  · rw [List.dropWhile_cons_of_pos hc] at h
    have := congrArg List.length h
    have hle := dropWhile_len_le p l
    simp only [List.length_cons] at this
    omega
  · exact Bool.eq_false_iff.mpr hc

/-- dropWhile is idempotent (helper). -/
theorem dropWhile_twice (p : Char → Bool) (l : List Char) :
    List.dropWhile p (List.dropWhile p l) = List.dropWhile p l := by
  induction l with
  | nil => rfl
  | cons c rest ih =>
    by_cases hc : p c = true
    · rw [List.dropWhile_cons_of_pos hc]
      exact ih
    · rw [List.dropWhile_cons_of_neg hc, List.dropWhile_cons_of_neg hc]

/-- Trimming the end twice equals trimming once (helper). -/
theorem trimEnd_twice (l : List Char) :
    ((((l.reverse.dropWhile wsChar).reverse).reverse.dropWhile wsChar)).reverse =
      (l.reverse.dropWhile wsChar).reverse := by
  rw [List.reverse_reverse, dropWhile_twice]

/-- Removing trailing whitespace keeps the no-leading-whitespace property
(helper). -/
theorem dropWhile_of_trimEnd {l : List Char} (h : List.dropWhile wsChar l = l) :
    List.dropWhile wsChar (l.reverse.dropWhile wsChar).reverse =
      (l.reverse.dropWhile wsChar).reverse := by
  have hdec : l.reverse = l.reverse.takeWhile wsChar ++ l.reverse.dropWhile wsChar :=
    (List.takeWhile_append_dropWhile _ _).symm
  have hl : l = (l.reverse.dropWhile wsChar).reverse ++ (l.reverse.takeWhile wsChar).reverse := by
    conv_lhs => rw [← List.reverse_reverse l]
    rw [← List.reverse_append, ← hdec]
  cases he : (l.reverse.dropWhile wsChar).reverse with
  | nil => rfl
  | cons c z =>
    refine List.dropWhile_cons_of_neg ?_
    rw [he] at hl
    rw [hl] at h
    have hc := dropWhile_head_false (l := z ++ (l.reverse.takeWhile wsChar).reverse)
      (by simpa using h)
    simp [hc]

/-- Trim is idempotent on character lists (helper). -/
theorem jsTrimL_idem (cs : List Char) : jsTrimL (jsTrimL cs) = jsTrimL cs := by
  unfold jsTrimL
  have h1 : List.dropWhile wsChar
      (((cs.dropWhile wsChar).reverse.dropWhile wsChar)).reverse =
      (((cs.dropWhile wsChar).reverse.dropWhile wsChar)).reverse :=
    dropWhile_of_trimEnd (dropWhile_twice wsChar cs)
  rw [h1, trimEnd_twice]

/-- Trim is idempotent (helper). -/
theorem jsTrim_idem (s : String) : jsTrim (jsTrim s) = jsTrim s := by
  unfold jsTrim
  rw [show (String.mk (jsTrimL s.toList)).toList = jsTrimL s.toList from rfl, jsTrimL_idem]




/-- The cell list of a pipe line consists of trimmed non-blank strings
(helper). -/
theorem pipeCells_good (line : String) : ∀ c ∈ pipeCells line, goodCell c := by
  intro c hc
  unfold pipeCells at hc
  simp only [List.mem_map, List.mem_filter] at hc
  obtain ⟨x, ⟨hx, hxne⟩, hxc⟩ := hc
  subst hxc
  exact ⟨jsTrim_idem x, by simpa using hxne⟩

/-- Accumulating a line touches no table field (helper). -/
theorem goodState_accumulate (line : String) (st : MdState) (h : goodState st) :
    goodState (accumulate line st) := by
  unfold accumulate
  split
  · dsimp only
    split
    · exact h
    · exact h
  · split
    · exact h
    · exact h

/-- Pushing a key-value pair touches no table field (helper). -/
theorem goodState_pushKV (line : String) (st : MdState) (h : goodState st) :
    goodState (pushKV line st) := by
  unfold pushKV
  split
  · exact h
  · exact h

/-- Closing a section touches no table field (helper). -/
theorem goodState_flushSection (st : MdState) (h : goodState st) :
    goodState (flushSection st) := by
  unfold flushSection
  split
  · exact h
  · exact h

/-- A markdown table built from good cells is good (helper). -/
theorem goodTable_mdTableOf (headers : List String) (rows : List (List String))
    (hh : ∀ c ∈ headers, goodCell c) (hr : ∀ r ∈ rows, ∀ c ∈ r, goodCell c) :
    goodTable (mdTableOf headers rows) := by
  unfold goodTable
  constructor
  · intro h hmem
    simp only [mdTableOf, List.mem_map] at hmem
    obtain ⟨s, hs, hse⟩ := hmem
    exact ⟨s, hse.symm, hh s hs⟩
  · intro r hmem
    simp only [mdTableOf, List.mem_map] at hmem
    obtain ⟨cells, hcells, hce⟩ := hmem
    exact ⟨cells, hce.symm, hr cells hcells⟩

/-- Closing a table preserves the cell invariant (helper). -/
theorem goodState_flushTable (st : MdState) (h : goodState st) :
    goodState (flushTable st) := by
  obtain ⟨ht, hh, hr⟩ := h
  unfold flushTable
  split
  · refine ⟨?_, by simp, by simp⟩
    intro t hmem
    simp only [List.mem_append, List.mem_singleton] at hmem
    rcases hmem with hmem | hmem
    · exact ht t hmem
    · subst hmem
      exact goodTable_mdTableOf _ _ hh hr
  · exact ⟨ht, by simp, by simp⟩

/-- The markdown scan preserves the cell invariant (helper). -/
theorem mdLoop_good : ∀ (n : Nat) (lines : List String), lines.length ≤ n →
    ∀ st, goodState st → goodState (mdLoop lines st) := by
  intro n
  induction n with
  | zero =>
    intro lines hlen st hst
    cases lines with
    | nil => exact hst
    | cons l rest => simp at hlen
  | succ n ih =>
    intro lines hlen st hst
    cases lines with
    | nil => exact hst
    | cons l rest =>
      simp only [List.length_cons] at hlen
      have hrest : rest.length ≤ n := by omega
      rw [mdLoop.eq_def]
      dsimp only
      split
      · exact ih rest hrest st hst
      · split
        · exact ih rest hrest _ ⟨(goodState_flushSection st hst).1,
            (goodState_flushSection st hst).2.1, (goodState_flushSection st hst).2.2⟩
        · split
          · exact ih rest hrest _ (goodState_pushKV _ st hst)
          · split
            · split
              · cases rest with
                | nil =>
                  exact ⟨hst.1, pipeCells_good _, hst.2.2⟩
                | cons l2 rest2 =>
                  refine ih rest2 (by simp only [List.length_cons] at hrest; omega) _
                    ⟨hst.1, pipeCells_good _, hst.2.2⟩
              · split
                · refine ih rest hrest _ ⟨hst.1, hst.2.1, ?_⟩
                  intro r hmem
                  simp only [List.mem_append, List.mem_singleton] at hmem
                  rcases hmem with hmem | hmem
                  · exact hst.2.2 r hmem
                  · subst hmem
                    exact pipeCells_good _
                · exact ih rest hrest _ (goodState_accumulate _ st hst)
            · split
              · exact ih rest hrest _ (goodState_accumulate _ _ (goodState_flushTable st hst))
              · exact ih rest hrest _ (goodState_accumulate _ st hst)

/-- Closing a section leaves the finished tables unchanged (helper). -/
theorem flushSection_tables (st : MdState) : (flushSection st).tables = st.tables := by
  unfold flushSection
  split <;> rfl

/-- The initial scan state satisfies the cell invariant (helper). -/
theorem goodState_init : goodState MdState.init := by
  unfold goodState MdState.init
  refine ⟨?_, ?_, ?_⟩ <;> simp

/-- C10: every header cell and every row cell of a table produced by the
markdown fallback parser is a trimmed non-blank string (blank cells
between pipes are dropped when a pipe line is split), while the compact
table normalizer keeps blank cells as empty strings, shown on a concrete
compact table. -/
theorem markdown_cells_trimmed_nonblank :
    (∀ text, ∀ t ∈ (parseMarkdownText text).tables, goodTable t) ∧
    parseCompactTable (.obj [("data", .str "A|B\n1||3")]) =
      some ⟨none, [.str "A", .str "B"], [.arr [.str "1", .str "", .str "3"]]⟩ := by
  constructor
  · intro text t hmem
    have hst : goodState (mdLoop (splitOnChar '\n' text) MdState.init) :=
      mdLoop_good (splitOnChar '\n' text).length _ (le_refl _) _ goodState_init
    unfold parseMarkdownText at hmem
    dsimp only at hmem
    rw [flushSection_tables] at hmem
    split at hmem
    · simp only [List.mem_append, List.mem_singleton] at hmem
      rcases hmem with hmem | hmem
      · exact hst.1 t hmem
      · subst hmem
        exact goodTable_mdTableOf _ _ hst.2.1 hst.2.2
    · exact hst.1 t hmem
  · rfl

/-- Witness for C10: the table of a concrete two-line markdown input
satisfies the cell invariant. -/
theorem markdown_cells_trimmed_nonblank_witness :
    goodTable (mdTableOf ["A", "B"] [["1", "2"]]) :=
  markdown_cells_trimmed_nonblank.1 "| A | B |\n|---|---|\n| 1 | 2 |" _
    (by rw [show (parseMarkdownText "| A | B |\n|---|---|\n| 1 | 2 |").tables =
          [mdTableOf ["A", "B"] [["1", "2"]]] from rfl]
        simp)


/-- On input whose every line fails the section, key-value and pipe
matchers, the markdown scan only accumulates the cleaned lines into the
remaining pool (helper). -/
theorem mdLoop_prose : ∀ (lines : List String),
    (∀ l ∈ lines, jsTrim l = "" ∨ (sectionHeaderOf (jsTrim l) = none ∧
      kvTaken (jsTrim l) = false ∧ jsStartsWith "|" (jsTrim l) = false)) →
    ∀ acc : List String,
    mdLoop lines ⟨[], [], [], none, false, [], [], acc⟩ =
      ⟨[], [], [], none, false, [], [], acc ++ proseAcc lines⟩ := by
  intro lines
  induction lines with
  | nil =>
    intro h acc
    simp [mdLoop, proseAcc]
  | cons l rest ih =>
    intro h acc
    have hrest : ∀ x ∈ rest, jsTrim x = "" ∨ (sectionHeaderOf (jsTrim x) = none ∧
        kvTaken (jsTrim x) = false ∧ jsStartsWith "|" (jsTrim x) = false) :=
      fun x hx => h x (by simp [hx])
    rw [mdLoop.eq_def]
    dsimp only
    by_cases hempty : jsTrim l = ""
    · rw [if_pos hempty, ih hrest acc]
      have : proseAcc (l :: rest) = proseAcc rest := by
        simp [proseAcc, hempty]
      rw [this]
    · obtain ⟨hsec, hkv, hpipe⟩ := (h l (by simp)).resolve_left hempty
      rw [if_neg hempty, hsec]
      rw [if_neg (by simp [hkv]), if_neg (by simp [hpipe])]
      unfold accumulate
      rw [if_neg (show ¬ (false = true) by simp)]
      dsimp only
      by_cases hintro : isIntroLine (jsTrim l) = true
      · rw [if_pos hintro, ih hrest acc]
        have : proseAcc (l :: rest) = proseAcc rest := by
          simp [proseAcc, hempty, hintro]
        rw [this]
      · rw [if_neg hintro, ih hrest (acc ++ [cleanBoldMarkers (jsTrim l)])]
        have : proseAcc (l :: rest) = cleanBoldMarkers (jsTrim l) :: proseAcc rest := by
          simp [proseAcc, hempty, hintro]
        rw [this]
        simp


/-- C9: for the empty string, and for every non-JSON input whose lines
are prose (no line matches the section, key-value or table heuristics),
the parser returns an extraction whose three structured sequences are all
empty and whose `rawText` is the cleaned version of the input. -/
theorem fallback_totality (text : String)
    (hjson : jsonPathResult (cleanOf text) = none)
    (hprose : ∀ l ∈ splitOnChar '\n' text, jsTrim l = "" ∨
      (sectionHeaderOf (jsTrim l) = none ∧ kvTaken (jsTrim l) = false ∧
       jsStartsWith "|" (jsTrim l) = false)) :
    parseExtractedText text =
      { title := none, documentType := none, keyValuePairs := [], sections := [],
        tables := [], rawText := some (cleanedProse text) } ∧
    parseExtractedText "" =
      { title := none, documentType := none, keyValuePairs := [], sections := [],
        tables := [], rawText := some "" } := by
  refine ⟨?_, rfl⟩
  have hfall : parseExtractedText text = parseMarkdownText text := by
    unfold parseExtractedText
    rw [hjson]
  rw [hfall]
  unfold parseMarkdownText
  rw [show MdState.init = ⟨[], [], [], none, false, [], [], []⟩ from rfl,
      mdLoop_prose (splitOnChar '\n' text) hprose []]
  rfl

/-- Witness for C9: two lines of prose come back verbatim in `rawText`
with all structured fields empty. -/
theorem fallback_totality_witness :
    parseExtractedText "lorem ipsum\nMore prose here" =
      { title := none, documentType := none, keyValuePairs := [], sections := [],
        tables := [], rawText := some "lorem ipsum\nMore prose here" } :=
  (fallback_totality "lorem ipsum\nMore prose here" rfl (by decide)).1
